import Mathlib

/-!
Verification of `collaborative_call_once` (file
`src/include/oneapi/tbb/collaborative_call_once.h`).

The source is a lock-free one-time-initialization primitive.  A flag holds a
single atomic machine word `my_state` that is either `uninitialized` (0),
`done` (1), or the (128-byte aligned) address of the winning thread's local
`once_runner` with an admission count tagged into the low 7 bits.  We embed the
protocol as an explicit transition system: each thread is at a program location
taken directly from the body of `do_collaborative_call_once` (plus the
`once_runner` member functions it calls), every step performs at most the one
atomic shared-memory access the corresponding source line performs, and a
schedule (a list of thread ids) drives a deterministic, executable `step`
function.  Machine-word arithmetic is `Nat` with explicit reduction mod `2^64`.

Runner addresses: `once_runner` is `alignas(max_nfs_size)` (= 128), so each
live runner has a distinct nonzero 128-byte aligned address.  The model makes
the harmless concretization `addrOf t = 128 * (t + 1) (mod 2^64)` for the local
runner of thread `t`; theorems that need addresses to be distinct and in range
carry an explicit bound on the number of threads.

Ghost fields (`fnRuns`, `winner`, `won`, `registered`, `destroyed`) record
history only; they never influence a branch of `step`.
-/

namespace CollabOnce

/-- Word size of `std::uintptr_t` / `std::size_t` on the modeled LP64 target. -/
def W : Nat := 2 ^ 64

/-- `constexpr std::size_t bit_count = 7;` (line 38). -/
def bit_count : Nat := 7

/-- `max_nfs_size`, constrained by `static_assert(1 << bit_count == max_nfs_size)`
(line 40): the alignment of `once_runner` and the admission-count modulus. -/
def max_nfs_size : Nat := 128

/-- `inline constexpr std::uintptr_t maskoff_pointer(std::uintptr_t ptr) {
  return ptr & (std::size_t(-1) << bit_count); }` (lines 42-44).
`std::size_t(-1)` is `2^64 - 1` and the shift wraps mod `2^64`. -/
def maskoff_pointer (ptr : Nat) : Nat :=
  ptr &&& ((W - 1) <<< bit_count % W)

/-- Model stand-in for the address of thread `t`'s stack-local `once_runner`:
distinct, nonzero, 128-byte aligned (from `alignas(max_nfs_size)`, line 46). -/
def addrOf (t : Nat) : Nat := max_nfs_size * (t + 1) % W

/-- Program locations of `do_collaborative_call_once` (lines 140-186) together
with the `once_runner` operations it invokes.  `start` is the initial load
(line 141); `loopHead` the `while (expected != state::done)` test (line 143);
`tryWin` the winner CAS (line 145); `makeRunner`, `runFn` the winner's
`make_runner()` / `run_once(f)` (lines 147-156); `doneCAS` / `failCAS` the two
drain-then-CAS loops (lines 154-161); `mSpin` the saturation spin (lines
167-168); `mGuard` the registration guard-and-CAS (line 171); `mCheckRunner`
the `if (auto runner = ...)` decode (line 173); `mWaitInit`, `mIncRef`,
`mFetchSub`, `mAssist`, `mDecRef` lines 174-183; `dtorOk` / `dtorErr` the
`~once_runner` spin (lines 90-94) on the normal and exceptional exit path;
`stuck` models a dereference of a decoded address that is no live runner
(undefined behaviour in the source). -/
inductive PC where
  | start | loopHead | tryWin
  | makeRunner | runFn | doneCAS | failCAS
  | mSpin | mGuard | mCheckRunner | mWaitInit | mIncRef | mFetchSub | mAssist | mDecRef
  | dtorOk | dtorErr | finishedOk | finishedErr | stuck
deriving DecidableEq

/-- Per-thread state: the program counter, the local `expected` variable, and
the fields of this thread's own stack-local `once_runner` (`inited` is
`m_initialized`, `refCount` is `ref_count`, `workDone` records that the
runner's `wait_context` has drained, i.e. `run_once` completed).  `target` is
the runner decoded by `maskoff_pointer` on the assist path, as a thread index.
`registered` (ghost) records a registration increment not yet released by
`fetch_sub`; `won` (ghost) records that the thread's winner CAS succeeded;
`destroyed` (ghost) records that `~once_runner` ran `m_storage.~storage_t()`. -/
structure ThreadState where
  pc : PC
  expected : Nat
  target : Nat
  registered : Bool
  won : Bool
  inited : Bool
  refCount : Nat
  workDone : Bool
  destroyed : Bool
deriving DecidableEq

/-- Global state: the flag's atomic word `my_state`, one `ThreadState` per
thread, and two ghost histories: `fnRuns` counts executions of the user
functor, `winner` records the last thread whose winner CAS succeeded. -/
structure Sys where
  myState : Nat
  threads : List ThreadState
  fnRuns : Nat
  winner : Option Nat
deriving DecidableEq

/-- A fresh thread about to perform the initial load of `my_state`. -/
def initTS : ThreadState :=
  { pc := .start, expected := 0, target := 0, registered := false, won := false,
    inited := false, refCount := 0, workDone := false, destroyed := false }

/-- A fresh flag (`my_state{ state::uninitialized }`, line 136) with `n`
threads each about to enter `do_collaborative_call_once`. -/
def initSys (n : Nat) : Sys :=
  { myState := 0, threads := List.replicate n initTS, fnRuns := 0, winner := none }

/-- One atomic step of thread `i`.  `fails i` tells whether the user functor
raises when thread `i`'s winning attempt runs it (the functor is the same for
every caller; failure may depend on the attempt).  A thread whose enabling
condition does not hold (a spin-wait, or a CAS retry loop whose CAS fails
without changing anything) leaves the state unchanged. -/
def step (fails : Nat → Bool) (s : Sys) (i : Nat) : Sys :=
  match s.threads[i]? with
  | none => s
  | some t =>
    match t.pc with
    | .start =>
        -- line 141: expected = my_state.load(acquire)
        { s with threads := s.threads.set i { t with expected := s.myState, pc := .loopHead } }
    | .loopHead =>
        -- line 143: while (expected != state::done), then the branch of line 145
        if t.expected = 1 then
          { s with threads := s.threads.set i { t with pc := .dtorOk } }
        else if t.expected = 0 then
          { s with threads := s.threads.set i { t with pc := .tryWin } }
        else
          { s with threads := s.threads.set i { t with pc := .mSpin } }
    | .tryWin =>
        -- line 145: my_state.compare_exchange_strong(expected, &local_runner);
        -- on failure `expected` holds the current value and the else branch runs
        if s.myState = 0 then
          { s with myState := addrOf i,
                   threads := s.threads.set i { t with pc := .makeRunner, won := true },
                   winner := some i }
        else
          { s with threads := s.threads.set i { t with expected := s.myState, pc := .mSpin } }
    | .makeRunner =>
        -- lines 96-99: new(&m_storage) storage_t(); m_initialized.store(true, release)
        { s with threads := s.threads.set i { t with inited := true, pc := .runFn } }
    | .runFn =>
        -- lines 151-152 / 109-117: run_once executes the functor and waits for
        -- the wait_context to drain; on_exception routes to the reset loop
        { s with fnRuns := s.fnRuns + 1,
                 threads := s.threads.set i
                      { t with workDone := true,
                               pc := if fails i then .failCAS else .doneCAS } }
    | .doneCAS =>
        -- lines 159-161: CAS from the fixed base &local_runner to done,
        -- re-arming local_expected to the base after every failed attempt
        if s.myState = addrOf i then
          { s with myState := 1, threads := s.threads.set i { t with pc := .dtorOk } }
        else s
    | .failCAS =>
        -- lines 154-157: CAS from the fixed base &local_runner to uninitialized
        if s.myState = addrOf i then
          { s with myState := 0, threads := s.threads.set i { t with pc := .dtorErr } }
        else s
    | .mSpin =>
        -- lines 167-168: max_value = expected | (max_nfs_size-1);
        -- expected = spin_wait_while_eq(my_state, max_value)
        if s.myState = (t.expected ||| (max_nfs_size - 1)) then s
        else { s with threads := s.threads.set i { t with expected := s.myState, pc := .mGuard } }
    | .mGuard =>
        -- line 171: while (expected > state::done &&
        --                  !my_state.compare_exchange_strong(expected, expected + 1))
        if t.expected ≤ 1 then
          { s with threads := s.threads.set i { t with pc := .mCheckRunner } }
        else if s.myState = t.expected then
          { s with myState := (t.expected + 1) % W,
                   threads := s.threads.set i { t with registered := true, pc := .mCheckRunner } }
        else
          { s with threads := s.threads.set i { t with expected := s.myState, pc := .mSpin } }
    | .mCheckRunner =>
        -- line 173: if (auto runner = reinterpret_cast<once_runner*>(maskoff_pointer(expected)))
        if maskoff_pointer t.expected = 0 then
          { s with threads := s.threads.set i { t with pc := .loopHead } }
        else if maskoff_pointer t.expected / max_nfs_size - 1 < s.threads.length then
          { s with threads := s.threads.set i
                      { t with target := maskoff_pointer t.expected / max_nfs_size - 1,
                               pc := .mWaitInit } }
        else
          { s with threads := s.threads.set i { t with pc := .stuck } }
    | .mWaitInit =>
        -- lines 101-103 / 174: spin_wait_while_eq(m_initialized, false)
        match s.threads[t.target]? with
        | some tr =>
            if tr.inited then { s with threads := s.threads.set i { t with pc := .mIncRef } }
            else s
        | none => s
    | .mIncRef =>
        -- line 176: runner->increase_ref()
        if t.target = i then
          { s with threads := s.threads.set i
                      { t with refCount := t.refCount + 1, pc := .mFetchSub } }
        else
          match s.threads[t.target]? with
          | some tr =>
              let ts := s.threads.set i { t with pc := .mFetchSub }
              { s with threads := ts.set t.target { tr with refCount := tr.refCount + 1 } }
          | none => s
    | .mFetchSub =>
        -- line 177: my_state.fetch_sub(1)  (wraps mod 2^64)
        { s with myState := (s.myState + (W - 1)) % W,
                 threads := s.threads.set i { t with registered := false, pc := .mAssist } }
    | .mAssist =>
        -- lines 121-131 / 181: wait on the runner's wait_context with a stub
        -- context; returns once the winning attempt's functor has completed
        match s.threads[t.target]? with
        | some tr =>
            if tr.workDone then { s with threads := s.threads.set i { t with pc := .mDecRef } }
            else s
        | none => s
    | .mDecRef =>
        -- line 183: runner->decrease_ref()
        if t.target = i then
          { s with threads := s.threads.set i
                      { t with refCount := t.refCount - 1, pc := .loopHead } }
        else
          match s.threads[t.target]? with
          | some tr =>
              let ts := s.threads.set i { t with pc := .loopHead }
              { s with threads := ts.set t.target { tr with refCount := tr.refCount - 1 } }
          | none => s
    | .dtorOk =>
        -- lines 90-94: ~once_runner spins while ref_count > 0, then destroys
        -- m_storage iff m_initialized; then the call returns normally
        if t.refCount = 0 then
          { s with threads := s.threads.set i
                      { t with pc := .finishedOk, destroyed := t.inited } }
        else s
    | .dtorErr =>
        -- same destructor on the exceptional path; then the captured failure
        -- propagates to the caller
        if t.refCount = 0 then
          { s with threads := s.threads.set i
                      { t with pc := .finishedErr, destroyed := t.inited } }
        else s
    | .finishedOk => s
    | .finishedErr => s
    | .stuck => s

/-- Run a schedule: each entry names the thread that performs the next step. -/
def exec (fails : Nat → Bool) (n : Nat) (sched : List Nat) : Sys :=
  sched.foldl (step fails) (initSys n)

/-- The always-succeeding user functor (it only increments a shared counter). -/
def ff : Nat → Bool := fun _ => false

/-- Functor that raises on thread 0's winning attempt and on no other. -/
def failsZero : Nat → Bool := fun t => t == 0

/-- Thread 0's final state on the overflow trace: it won, its functor raised,
it reset the flag and returned exceptionally. -/
def t0Final : ThreadState :=
  { pc := .finishedErr, expected := 0, target := 0, registered := false, won := true,
    inited := true, refCount := 0, workDone := true, destroyed := true }

/-- Thread 1 (the second winner) parked at its done-CAS while its published
runner `addrOf 1` has assisting threads registering against it. -/
def t1DoneCAS : ThreadState :=
  { pc := .doneCAS, expected := 0, target := 0, registered := false, won := true,
    inited := true, refCount := 0, workDone := true, destroyed := false }

/-- Thread 2 (the straggler) parked at the saturation spin with the stale value
`addrOf 0 = 128` in `expected`, hence the stale sentinel `addrOf 0 ||| 127`. -/
def t2Spin : ThreadState :=
  { pc := .mSpin, expected := 128, target := 0, registered := false, won := false,
    inited := false, refCount := 0, workDone := false, destroyed := false }

/-- Assisting thread `3 + k` after its registration CAS from `addrOf 1 + k`. -/
def regDone (k : Nat) : ThreadState :=
  { pc := .mCheckRunner, expected := 256 + k, target := 0, registered := true, won := false,
    inited := false, refCount := 0, workDone := false, destroyed := false }

/-- Checkpoint on the overflow trace: second winner published, `j` assisting
threads registered, the straggler still parked at its stale spin. -/
def midSys (j : Nat) : Sys :=
  { myState := 256 + j,
    threads := [t0Final, t1DoneCAS, t2Spin]
      ++ (List.range j).map regDone ++ List.replicate (127 - j) initTS,
    fnRuns := 2, winner := some 1 }

/-- First 14 steps: thread 0 wins, publishes `addrOf 0`, thread 2 observes it
and parks at the saturation spin, thread 0's functor raises and it resets the
flag to uninitialized, then thread 1 wins and publishes `addrOf 1`. -/
def preTrace : List Nat := [0, 0, 0, 2, 2, 0, 0, 0, 0, 1, 1, 1, 1, 1]

/-- Registration blocks: threads `3 + a .. 3 + b - 1` each load the state, take
the assist branch, pass the saturation spin and succeed at the registration
CAS (4 steps each). -/
def regChunk (a b : Nat) : List Nat :=
  (List.range' (3 + a) (b - a)).flatMap (fun t => [t, t, t, t])

/-- Schedule exhibiting a stale saturation sentinel: after `preTrace` and the
four registration blocks the word sits at `addrOf 1 + 127` (saturated for the
live runner), and the final step lets thread 2's spin pass (the word differs
from thread 2's stale sentinel `addrOf 0 ||| 127`), leaving thread 2 at the
registration guard holding `expected = addrOf 1 + 127`. -/
def schedPre : List Nat :=
  preTrace ++ regChunk 0 32 ++ regChunk 32 64 ++ regChunk 64 96 ++ regChunk 96 127 ++ [2]

/-- `schedPre` followed by thread 2's registration CAS, which increments the
saturated word into the address bits. -/
def schedOver : List Nat := schedPre ++ [2]

set_option maxRecDepth 10000 in
theorem midA : List.foldl (step failsZero) (initSys 130) preTrace = midSys 0 := by decide

set_option maxRecDepth 10000 in
theorem midB : List.foldl (step failsZero) (midSys 0) (regChunk 0 32) = midSys 32 := by decide

set_option maxRecDepth 10000 in
theorem midC : List.foldl (step failsZero) (midSys 32) (regChunk 32 64) = midSys 64 := by decide

set_option maxRecDepth 10000 in
theorem midD : List.foldl (step failsZero) (midSys 64) (regChunk 64 96) = midSys 96 := by decide

set_option maxRecDepth 10000 in
theorem midE : List.foldl (step failsZero) (midSys 96) (regChunk 96 127) = midSys 127 := by decide

/-- Composition of the checkpoints: the state after `schedPre`. -/
theorem execPre : exec failsZero 130 schedPre = step failsZero (midSys 127) 2 := by
  simp only [exec, schedPre, List.foldl_append, midA, midB, midC, midD, midE,
    List.foldl_cons, List.foldl_nil]

/-- Composition of the checkpoints: the state after `schedOver`. -/
theorem execOver :
    exec failsZero 130 schedOver = step failsZero (step failsZero (midSys 127) 2) 2 := by
  have h : exec failsZero 130 schedOver = step failsZero (exec failsZero 130 schedPre) 2 := by
    simp only [exec, schedOver, List.foldl_append, List.foldl_cons, List.foldl_nil]
  rw [h, execPre]

set_option maxRecDepth 10000 in
/-- C1: the trace `schedOver` refutes the claimed state-word invariant on the
code as written.  After `schedPre` the winner (thread 1, runner address
`addrOf 1`) is still parked at its done-CAS, i.e. the flag is `Active`, and
the word holds `addrOf 1 + 127` (admission count `C-1 = 127`).  The next step
is an assisting thread's registration increment, after which the word holds
`addrOf 1 + 128`: the admission count leaves `[0, C-1]` and carries into the
address bits (`maskoff_pointer` no longer recovers the published runner
address), a transition `Active(addr,127) → Active(addr,128)` outside the
claimed transition system. -/
theorem c1_count_overflow :
    (exec failsZero 130 schedPre).myState = addrOf 1 + 127 ∧
    ((exec failsZero 130 schedPre).threads.getD 1 initTS).pc = .doneCAS ∧
    (exec failsZero 130 schedOver).myState = addrOf 1 + 128 ∧
    ((exec failsZero 130 schedOver).threads.getD 1 initTS).pc = .doneCAS ∧
    maskoff_pointer (exec failsZero 130 schedOver).myState ≠ addrOf 1 := by
  rw [execPre, execOver]
  decide

set_option maxRecDepth 10000 in
/-- C5: the trace `schedPre` refutes the saturation-sentinel cap on the code
as written.  After `schedPre`, the flag word equals the saturated sentinel
`addrOf 1 ||| (C-1)` of the live runner, and thread 2 has just observed
exactly that value (its `expected` equals the word), yet thread 2 is at the
registration guard, not busy-waiting: its own `max_value` was computed from
the stale address `addrOf 0`.  Its next step performs the registration CAS,
raising the embedded count to `C = 128`, which overflows the count bits into
the address bits. -/
theorem c5_saturated_registration :
    (exec failsZero 130 schedPre).myState = addrOf 1 ||| (max_nfs_size - 1) ∧
    ((exec failsZero 130 schedPre).threads.getD 2 initTS).pc = .mGuard ∧
    ((exec failsZero 130 schedPre).threads.getD 2 initTS).expected
      = (exec failsZero 130 schedPre).myState ∧
    ((exec failsZero 130 schedOver).threads.getD 2 initTS).registered = true ∧
    (exec failsZero 130 schedOver).myState = addrOf 1 + max_nfs_size := by
  rw [execPre, execOver]
  decide

/-! ### Arithmetic of `maskoff_pointer` -/

/-- The mask `std::size_t(-1) << bit_count` (mod `2^64`) as a shifted
all-ones block. -/
theorem mask_shift : (W - 1) <<< bit_count % W = (2 ^ 57 - 1) <<< 7 := by decide

/-- On in-range words, `maskoff_pointer` clears the low 7 bits. -/
theorem maskoff_eq_div (x : Nat) (hx : x < W) : maskoff_pointer x = x / 128 * 128 := by
  have hrepr : x / 128 * 128 = (x >>> 7) <<< 7 := by
    rw [Nat.shiftLeft_eq, Nat.shiftRight_eq_div_pow]
  apply Nat.eq_of_testBit_eq
  intro i
  rw [maskoff_pointer, Nat.testBit_land, mask_shift, Nat.testBit_shiftLeft,
    Nat.testBit_two_pow_sub_one, hrepr, Nat.testBit_shiftLeft, Nat.testBit_shiftRight]
  by_cases h7 : 7 ≤ i
  · by_cases h64 : i < 64
    · have h57 : i - 7 < 57 := by omega
      have hi : 7 + (i - 7) = i := by omega
      simp [h7, h57, hi]
    · have hxb : x.testBit i = false :=
        Nat.testBit_eq_false_of_lt
          (lt_of_lt_of_le hx (Nat.pow_le_pow_right (by norm_num) (by omega)))
      have hi : 7 + (i - 7) = i := by omega
      simp [h7, hi, hxb, show ¬(i - 7 < 57) by omega]
  · simp [h7]

/-- A 128-aligned in-range address survives `maskoff_pointer` after any tag
`c < 128` is added. -/
theorem maskoff_tag (p c : Nat) (hp : p % 128 = 0) (hpW : p < W) (hc : c < 128) :
    maskoff_pointer (p + c) = p := by
  obtain ⟨k, rfl⟩ := Nat.dvd_of_mod_eq_zero hp
  have hW : W = 2 ^ 64 := rfl
  have hpc : 128 * k + c < W := by omega
  rw [maskoff_eq_div _ hpc]
  have hdiv : (128 * k + c) / 128 = k := by
    rw [Nat.mul_add_div (by norm_num), Nat.div_eq_of_lt hc]
    omega
  rw [hdiv, Nat.mul_comm]


/-- C9: decoding the tagged word.  For any 128-aligned runner address `p`
(alignment is forced by `alignas(max_nfs_size)` on `once_runner`) and any
admission count `c ≤ C-1`, `maskoff_pointer (p + c) = p`; the sentinels
`uninitialized = 0` and `done = 1` decode to the null pointer; and a thread at
the `if (auto runner = maskoff_pointer(expected))` test whose `expected` holds
a terminal sentinel decodes null and skips straight back to the outer loop:
the step leaves the flag word, the functor-run count, and every runner field
unchanged — no dereference, no `ref_count` traffic, no assist. -/
theorem c9_maskoff_decode :
    (∀ p c : Nat, p % 128 = 0 → p < W → c < 128 → maskoff_pointer (p + c) = p) ∧
    maskoff_pointer 0 = 0 ∧ maskoff_pointer 1 = 0 ∧
    (∀ (fails : Nat → Bool) (s : Sys) (i : Nat) (t : ThreadState),
      s.threads[i]? = some t → t.pc = .mCheckRunner → t.expected ≤ 1 →
      step fails s i = { s with threads := s.threads.set i { t with pc := .loopHead } }) := by
  refine ⟨maskoff_tag, by decide, by decide, ?_⟩
  intro fails s i t h hpc hexp
  have hmask : maskoff_pointer t.expected = 0 := by
    interval_cases he : t.expected <;> decide
  simp only [step, h, hpc, hmask]
  simp

/-- Closed instance of `c9_maskoff_decode`: decode `p = 256`, `c = 5`, and the
skip step on a one-thread system parked at the decode with `expected = 1`. -/
theorem c9_maskoff_decode_w :
    maskoff_pointer (256 + 5) = 256 ∧
    step ff { myState := 1,
              threads := [{ initTS with pc := PC.mCheckRunner, expected := 1 }],
              fnRuns := 0, winner := none } 0
      = { myState := 1,
          threads := [{ initTS with pc := PC.loopHead, expected := 1 }],
          fnRuns := 0, winner := none } := by
  constructor
  · exact c9_maskoff_decode.1 256 5 (by norm_num) (by norm_num [W]) (by norm_num)
  · have h := c9_maskoff_decode.2.2.2 ff
      { myState := 1,
        threads := [{ initTS with pc := PC.mCheckRunner, expected := 1 }],
        fnRuns := 0, winner := none } 0
      { initTS with pc := PC.mCheckRunner, expected := 1 } rfl rfl (by norm_num)
    rw [h]
    decide

/-- Reading back the entry just written. -/
theorem getD_set_self (l : List ThreadState) (i : Nat) (a : ThreadState)
    (h : i < l.length) : (l.set i a).getD i initTS = a := by
  rw [List.getD_eq_getElem?_getD, List.getElem?_set_self h]
  rfl

/-- C3: the failure path of the winning attempt.  If the functor raises during
`run_once`, the winner moves to the reset loop (`failCAS`) and the functor ran
exactly once more; the reset loop compare-exchanges from the fixed base value
`addrOf i` (the bare runner address, i.e. admission count 0) — re-arming
`local_expected` to that base after every failed attempt changes nothing
observable, so a step with `my_state ≠ addrOf i` leaves the state untouched,
and the swap to `uninitialized` fires exactly when the admission count has
drained to zero; afterwards the thread leaves through the destructor and
returns exceptionally (`finishedErr`), re-raising to its own caller; and once
the word is back to 0 a fresh winner CAS can succeed, so a later call retries
from scratch. -/
theorem c3_failure_reset (fails : Nat → Bool) (s : Sys) (i : Nat) (t : ThreadState)
    (h : s.threads[i]? = some t) :
    (t.pc = .runFn → fails i = true →
      ((step fails s i).threads.getD i initTS).pc = .failCAS ∧
      (step fails s i).fnRuns = s.fnRuns + 1 ∧ (step fails s i).myState = s.myState) ∧
    (t.pc = .failCAS → s.myState ≠ addrOf i → step fails s i = s) ∧
    (t.pc = .failCAS → s.myState = addrOf i →
      (step fails s i).myState = 0 ∧
      ((step fails s i).threads.getD i initTS).pc = .dtorErr) ∧
    (t.pc = .dtorErr → t.refCount = 0 →
      ((step fails s i).threads.getD i initTS).pc = .finishedErr) ∧
    (t.pc = .tryWin → s.myState = 0 →
      (step fails s i).myState = addrOf i ∧ (step fails s i).winner = some i) := by
  have hlen : i < s.threads.length := (List.getElem?_eq_some_iff.mp h).1
  refine ⟨?_, ?_, ?_, ?_, ?_⟩
  · intro hpc hf
    simp [step, h, hpc, hf, List.getElem?_set_self hlen]
  · intro hpc hne
    simp [step, h, hpc, hne]
  · intro hpc he
    simp [step, h, hpc, he, List.getElem?_set_self hlen]
  · intro hpc hrc
    simp [step, h, hpc, hrc, List.getElem?_set_self hlen]
  · intro hpc he
    simp [step, h, hpc, he]

/-- Closed instance of `c3_failure_reset`: a one-thread system whose winner is
about to run a failing functor. -/
theorem c3_failure_reset_w :
    ((step failsZero
        { myState := 128, threads := [{ initTS with pc := PC.runFn, won := true, inited := true }],
          fnRuns := 0, winner := some 0 } 0).threads.getD 0 initTS).pc = PC.failCAS := by
  exact (c3_failure_reset failsZero
    { myState := 128, threads := [{ initTS with pc := PC.runFn, won := true, inited := true }],
      fnRuns := 0, winner := some 0 } 0
    { initTS with pc := PC.runFn, won := true, inited := true } rfl).1 rfl rfl |>.1

/-- C4: a `done` flag short-circuits.  A fresh caller (a thread in the initial
state) arriving at a flag whose word is `done` performs the initial load,
fails the `while (expected != state::done)` test immediately and leaves
through the (no-op) destructor: three steps later it has returned normally
(`finishedOk`, not an exceptional exit), the functor never ran, the flag word
is untouched, and no other thread's state changed — this holds for every
functor `fails`, in particular one different from the original. -/
theorem c4_done_noop (fails : Nat → Bool) (s : Sys) (i : Nat)
    (h : s.threads[i]? = some initTS) (hst : s.myState = 1) :
    ((step fails (step fails (step fails s i) i) i).threads.getD i initTS).pc = .finishedOk ∧
    (step fails (step fails (step fails s i) i) i).myState = s.myState ∧
    (step fails (step fails (step fails s i) i) i).fnRuns = s.fnRuns ∧
    (∀ j, j ≠ i →
      (step fails (step fails (step fails s i) i) i).threads[j]? = s.threads[j]?) := by
  have hlen : i < s.threads.length := (List.getElem?_eq_some_iff.mp h).1
  have h1 : step fails s i
      = { s with threads := s.threads.set i { initTS with expected := 1, pc := .loopHead } } := by
    simp [step, h, hst, initTS]
  have h2 : step fails (step fails s i) i
      = { s with threads := s.threads.set i { initTS with expected := 1, pc := .dtorOk } } := by
    rw [h1]
    simp [step, List.getElem?_set_self hlen, List.set_set, initTS]
  have h3 : step fails (step fails (step fails s i) i) i
      = { s with threads :=
            s.threads.set i { initTS with expected := 1, pc := .finishedOk } } := by
    rw [h2]
    simp [step, List.getElem?_set_self hlen, List.set_set, initTS]
  rw [h3]
  refine ⟨by simp [List.getElem?_set_self hlen], rfl, rfl, ?_⟩
  intro j hj
  simp [List.getElem?_set_ne (fun hij => hj hij.symm)]

/-- Closed instance of `c4_done_noop` on a two-thread system with a `done`
flag, under a functor that would raise if it ever ran. -/
theorem c4_done_noop_w :
    (Sys.threads (step failsZero (step failsZero (step failsZero
          { myState := 1, threads := [initTS, initTS], fnRuns := 0, winner := none } 0) 0) 0)
        |>.getD 0 initTS |>.pc) = PC.finishedOk := by
  exact (c4_done_noop failsZero
    { myState := 1, threads := [initTS, initTS], fnRuns := 0, winner := none } 0 rfl rfl).1

/-- C7: runner teardown.  The destructor of the stack-local `once_runner`
(entered on every exit path, winning or losing, normal or exceptional) first
spins while `ref_count > 0` — a step with nonzero `refCount` changes nothing —
and once `refCount = 0` it finishes the call, running `m_storage.~storage_t()`
exactly when `m_initialized` is set (`destroyed := t.inited`): a losing
attempt never constructed the bundle, so its teardown is a no-op. -/
theorem c7_runner_teardown (fails : Nat → Bool) (s : Sys) (i : Nat) (t : ThreadState)
    (h : s.threads[i]? = some t) (hpc : t.pc = .dtorOk ∨ t.pc = .dtorErr) :
    (t.refCount ≠ 0 → step fails s i = s) ∧
    (t.refCount = 0 →
      (step fails s i).threads.getD i initTS
        = { t with pc := if t.pc = .dtorOk then PC.finishedOk else PC.finishedErr,
                   destroyed := t.inited } ∧
      (step fails s i).myState = s.myState ∧
      (step fails s i).fnRuns = s.fnRuns) := by
  have hlen : i < s.threads.length := (List.getElem?_eq_some_iff.mp h).1
  rcases hpc with hpc | hpc
  · refine ⟨fun hrc => by simp [step, h, hpc, hrc], fun hrc => ?_⟩
    simp [step, h, hpc, hrc, List.getElem?_set_self hlen]
  · refine ⟨fun hrc => by simp [step, h, hpc, hrc], fun hrc => ?_⟩
    simp [step, h, hpc, hrc, List.getElem?_set_self hlen]

/-- Closed instance of `c7_runner_teardown`: a losing attempt (bundle never
constructed) tears down nothing. -/
theorem c7_runner_teardown_w :
    (step ff { myState := 1, threads := [{ initTS with pc := PC.dtorOk }],
               fnRuns := 1, winner := none } 0).threads.getD 0 initTS
      = { initTS with pc := PC.finishedOk, destroyed := false } := by
  have h := (c7_runner_teardown ff
    { myState := 1, threads := [{ initTS with pc := PC.dtorOk }], fnRuns := 1, winner := none }
    0 { initTS with pc := PC.dtorOk } rfl (Or.inl rfl)).2 rfl
  rw [h.1]
  rfl

/-- C10: the registration guard.  At the moonlighting CAS
`expected > state::done && my_state.compare_exchange_strong(expected, expected+1)`,
a step with `expected ≤ 1` never writes; a step whose CAS misses never writes;
the word changes only when the observed `expected` exceeds the `done` sentinel
and still equals the word, in which case the word was neither 0 nor 1 and
becomes `expected + 1` — in particular (no wrap) at least 3, so an assisting
thread's increment can never produce the bogus values 1 or 2 nor mutate an
`uninitialized` or `done` flag. -/
theorem c10_registration_guard (fails : Nat → Bool) (s : Sys) (i : Nat) (t : ThreadState)
    (h : s.threads[i]? = some t) (hpc : t.pc = .mGuard) :
    (t.expected ≤ 1 → (step fails s i).myState = s.myState) ∧
    (1 < t.expected → s.myState ≠ t.expected → (step fails s i).myState = s.myState) ∧
    (1 < t.expected → s.myState = t.expected →
      (step fails s i).myState = (t.expected + 1) % W ∧
      (t.expected + 1 < W → 2 < (step fails s i).myState)) ∧
    ((step fails s i).myState ≠ s.myState → 1 < s.myState ∧ s.myState = t.expected) := by
  refine ⟨?_, ?_, ?_, ?_⟩
  · intro hexp
    simp [step, h, hpc, hexp]
  · intro hexp hne
    simp [step, h, hpc, Nat.not_le.mpr hexp, hne]
  · intro hexp he
    have h2 : ¬t.expected ≤ 1 := Nat.not_le.mpr hexp
    refine ⟨by simp [step, h, hpc, h2, he], fun hW => ?_⟩
    have : (t.expected + 1) % W = t.expected + 1 := Nat.mod_eq_of_lt hW
    simp [step, h, hpc, h2, he, this]
    omega
  · intro hne
    by_cases hexp : t.expected ≤ 1
    · exact absurd (by simp [step, h, hpc, hexp]) hne
    · by_cases he : s.myState = t.expected
      · exact ⟨by omega, he⟩
      · exact absurd (by simp [step, h, hpc, hexp, he]) hne

/-- Closed instance of `c10_registration_guard`: a successful registration CAS
from `addrOf 0 + 3`. -/
theorem c10_registration_guard_w :
    (step ff { myState := 131, threads := [{ initTS with pc := PC.mGuard, expected := 131 }],
               fnRuns := 1, winner := none } 0).myState = 132 := by
  have h := ((c10_registration_guard ff
    { myState := 131, threads := [{ initTS with pc := PC.mGuard, expected := 131 }],
      fnRuns := 1, winner := none } 0
    { initTS with pc := PC.mGuard, expected := 131 } rfl rfl).2.2.1 (by norm_num) rfl).1
  rw [h]
  decide

/-! ### A relational view of `step`, for invariant proofs -/

/-- All possible outcomes of one `step`, with the guards that enabled them.
`Shape fails s i r` holds when `r` is a state that `step _ s i` can produce; the
constructors follow the branches of `step` one-for-one (`stutter` collects
every branch that leaves the state unchanged, including blocked spins). -/
inductive Shape (fails : Nat → Bool) (s : Sys) (i : Nat) : Sys → Prop where
  | stutter : Shape fails s i s
  | load (t) (h : s.threads[i]? = some t) (hpc : t.pc = .start) :
      Shape fails s i { s with threads := s.threads.set i { t with expected := s.myState, pc := .loopHead } }
  | seeDone (t) (h : s.threads[i]? = some t) (hpc : t.pc = .loopHead) (he : t.expected = 1) :
      Shape fails s i { s with threads := s.threads.set i { t with pc := .dtorOk } }
  | seeZero (t) (h : s.threads[i]? = some t) (hpc : t.pc = .loopHead) (he1 : t.expected ≠ 1)
      (he0 : t.expected = 0) :
      Shape fails s i { s with threads := s.threads.set i { t with pc := .tryWin } }
  | seeAddr (t) (h : s.threads[i]? = some t) (hpc : t.pc = .loopHead) (he1 : t.expected ≠ 1)
      (he0 : t.expected ≠ 0) :
      Shape fails s i { s with threads := s.threads.set i { t with pc := .mSpin } }
  | winCAS (t) (h : s.threads[i]? = some t) (hpc : t.pc = .tryWin) (hst : s.myState = 0) :
      Shape fails s i { s with myState := addrOf i,
                               threads := s.threads.set i { t with pc := .makeRunner, won := true },
                               winner := some i }
  | winMiss (t) (h : s.threads[i]? = some t) (hpc : t.pc = .tryWin) (hst : s.myState ≠ 0) :
      Shape fails s i { s with threads := s.threads.set i { t with expected := s.myState, pc := .mSpin } }
  | mkRunner (t) (h : s.threads[i]? = some t) (hpc : t.pc = .makeRunner) :
      Shape fails s i { s with threads := s.threads.set i { t with inited := true, pc := .runFn } }
  | runOk (t) (h : s.threads[i]? = some t) (hpc : t.pc = .runFn) (hf : fails i = false) :
      Shape fails s i { s with fnRuns := s.fnRuns + 1,
                               threads := s.threads.set i { t with workDone := true, pc := .doneCAS } }
  | runErr (t) (h : s.threads[i]? = some t) (hpc : t.pc = .runFn) (hf : fails i = true) :
      Shape fails s i { s with fnRuns := s.fnRuns + 1,
                               threads := s.threads.set i { t with workDone := true, pc := .failCAS } }
  | doneHit (t) (h : s.threads[i]? = some t) (hpc : t.pc = .doneCAS) (hst : s.myState = addrOf i) :
      Shape fails s i { s with myState := 1, threads := s.threads.set i { t with pc := .dtorOk } }
  | failHit (t) (h : s.threads[i]? = some t) (hpc : t.pc = .failCAS) (hst : s.myState = addrOf i) :
      Shape fails s i { s with myState := 0, threads := s.threads.set i { t with pc := .dtorErr } }
  | spinPass (t) (h : s.threads[i]? = some t) (hpc : t.pc = .mSpin)
      (hst : s.myState ≠ (t.expected ||| (max_nfs_size - 1))) :
      Shape fails s i { s with threads := s.threads.set i { t with expected := s.myState, pc := .mGuard } }
  | guardLow (t) (h : s.threads[i]? = some t) (hpc : t.pc = .mGuard) (he : t.expected ≤ 1) :
      Shape fails s i { s with threads := s.threads.set i { t with pc := .mCheckRunner } }
  | guardHit (t) (h : s.threads[i]? = some t) (hpc : t.pc = .mGuard) (he : ¬t.expected ≤ 1)
      (hst : s.myState = t.expected) :
      Shape fails s i { s with myState := (t.expected + 1) % W,
                               threads := s.threads.set i { t with registered := true, pc := .mCheckRunner } }
  | guardMiss (t) (h : s.threads[i]? = some t) (hpc : t.pc = .mGuard) (he : ¬t.expected ≤ 1)
      (hst : s.myState ≠ t.expected) :
      Shape fails s i { s with threads := s.threads.set i { t with expected := s.myState, pc := .mSpin } }
  | checkNull (t) (h : s.threads[i]? = some t) (hpc : t.pc = .mCheckRunner)
      (hm : maskoff_pointer t.expected = 0) :
      Shape fails s i { s with threads := s.threads.set i { t with pc := .loopHead } }
  | checkSome (t) (h : s.threads[i]? = some t) (hpc : t.pc = .mCheckRunner)
      (hm : maskoff_pointer t.expected ≠ 0)
      (hlt : maskoff_pointer t.expected / max_nfs_size - 1 < s.threads.length) :
      Shape fails s i { s with threads := s.threads.set i { t with target := maskoff_pointer t.expected / max_nfs_size - 1, pc := .mWaitInit } }
  | checkStuck (t) (h : s.threads[i]? = some t) (hpc : t.pc = .mCheckRunner)
      (hm : maskoff_pointer t.expected ≠ 0)
      (hge : ¬maskoff_pointer t.expected / max_nfs_size - 1 < s.threads.length) :
      Shape fails s i { s with threads := s.threads.set i { t with pc := .stuck } }
  | initPass (t tr) (h : s.threads[i]? = some t) (hpc : t.pc = .mWaitInit)
      (ht : s.threads[t.target]? = some tr) (hi : tr.inited = true) :
      Shape fails s i { s with threads := s.threads.set i { t with pc := .mIncRef } }
  | incSelf (t) (h : s.threads[i]? = some t) (hpc : t.pc = .mIncRef) (hsame : t.target = i) :
      Shape fails s i { s with threads := s.threads.set i { t with refCount := t.refCount + 1, pc := .mFetchSub } }
  | incOther (t tr) (h : s.threads[i]? = some t) (hpc : t.pc = .mIncRef) (hne : t.target ≠ i)
      (ht : s.threads[t.target]? = some tr) :
      Shape fails s i { s with threads :=
        (s.threads.set i { t with pc := .mFetchSub }).set t.target { tr with refCount := tr.refCount + 1 } }
  | subCount (t) (h : s.threads[i]? = some t) (hpc : t.pc = .mFetchSub) :
      Shape fails s i { s with myState := (s.myState + (W - 1)) % W,
                               threads := s.threads.set i { t with registered := false, pc := .mAssist } }
  | assistPass (t tr) (h : s.threads[i]? = some t) (hpc : t.pc = .mAssist)
      (ht : s.threads[t.target]? = some tr) (hw : tr.workDone = true) :
      Shape fails s i { s with threads := s.threads.set i { t with pc := .mDecRef } }
  | decSelf (t) (h : s.threads[i]? = some t) (hpc : t.pc = .mDecRef) (hsame : t.target = i) :
      Shape fails s i { s with threads := s.threads.set i { t with refCount := t.refCount - 1, pc := .loopHead } }
  | decOther (t tr) (h : s.threads[i]? = some t) (hpc : t.pc = .mDecRef) (hne : t.target ≠ i)
      (ht : s.threads[t.target]? = some tr) :
      Shape fails s i { s with threads :=
        (s.threads.set i { t with pc := .loopHead }).set t.target { tr with refCount := tr.refCount - 1 } }
  | dtorFire (t) (h : s.threads[i]? = some t) (hpc : t.pc = .dtorOk) (hrc : t.refCount = 0) :
      Shape fails s i { s with threads := s.threads.set i { t with pc := .finishedOk, destroyed := t.inited } }
  | dtorFireErr (t) (h : s.threads[i]? = some t) (hpc : t.pc = .dtorErr) (hrc : t.refCount = 0) :
      Shape fails s i { s with threads := s.threads.set i { t with pc := .finishedErr, destroyed := t.inited } }

/-- Every concrete step matches one of the shapes. -/
theorem step_shape (fails : Nat → Bool) (s : Sys) (i : Nat) :
    Shape fails s i (step fails s i) := by
  unfold step
  split
  · exact .stutter
  next t heq =>
    split
    · exact .load t heq (by assumption)
    · -- loopHead
      next hpc =>
      split
      · next he => exact .seeDone t heq hpc he
      · next he1 =>
        split
        · next he0 => exact .seeZero t heq hpc he1 he0
        · next he0 => exact .seeAddr t heq hpc he1 he0
    · -- tryWin
      next hpc =>
      split
      · next hst => exact .winCAS t heq hpc hst
      · next hst => exact .winMiss t heq hpc hst
    · next hpc => exact .mkRunner t heq hpc
    · -- runFn
      next hpc =>
      split
      · next hf => exact .runErr t heq hpc hf
      · next hf => exact .runOk t heq hpc (eq_false_of_ne_true hf)
    · -- doneCAS
      next hpc =>
      split
      · next hst => exact .doneHit t heq hpc hst
      · exact .stutter
    · -- failCAS
      next hpc =>
      split
      · next hst => exact .failHit t heq hpc hst
      · exact .stutter
    · -- mSpin
      next hpc =>
      split
      · exact .stutter
      · next hst => exact .spinPass t heq hpc hst
    · -- mGuard
      next hpc =>
      split
      · next he => exact .guardLow t heq hpc he
      · next he =>
        split
        · next hst => exact .guardHit t heq hpc he hst
        · next hst => exact .guardMiss t heq hpc he hst
    · -- mCheckRunner
      next hpc =>
      split
      · next hm => exact .checkNull t heq hpc hm
      · next hm =>
        split
        · next hlt => exact .checkSome t heq hpc hm hlt
        · next hlt => exact .checkStuck t heq hpc hm hlt
    · -- mWaitInit
      next hpc =>
      split
      · next tr ht =>
        split
        · next hi => exact .initPass t tr heq hpc ht hi
        · exact .stutter
      · exact .stutter
    · -- mIncRef
      next hpc =>
      split
      · next hsame => exact .incSelf t heq hpc hsame
      · next hsame =>
        split
        · next tr ht => exact .incOther t tr heq hpc hsame ht
        · exact .stutter
    · next hpc => exact .subCount t heq hpc
    · -- mAssist
      next hpc =>
      split
      · next tr ht =>
        split
        · next hw => exact .assistPass t tr heq hpc ht hw
        · exact .stutter
      · exact .stutter
    · -- mDecRef
      next hpc =>
      split
      · next hsame => exact .decSelf t heq hpc hsame
      · next hsame =>
        split
        · next tr ht => exact .decOther t tr heq hpc hsame ht
        · exact .stutter
    · -- dtorOk
      next hpc =>
      split
      · next hrc => exact .dtorFire t heq hpc hrc
      · exact .stutter
    · -- dtorErr
      next hpc =>
      split
      · next hrc => exact .dtorFireErr t heq hpc hrc
      · exact .stutter
    · exact .stutter
    · exact .stutter
    · exact .stutter

/-- Reading an entry of a list after `set`: it is the written value (at the
written index) or an untouched entry. -/
theorem set_lookup {l : List ThreadState} {i j : Nat} {a u : ThreadState}
    (h : (l.set i a)[j]? = some u) : (i = j ∧ u = a) ∨ l[j]? = some u := by
  rw [List.getElem?_set] at h
  split at h
  · next hij =>
    split at h
    · exact Or.inl ⟨hij, (Option.some.injEq a u).mp h |>.symm⟩
    · cases h
  · next hij => exact Or.inr h

/-- Every invariant preserved by `step` holds along every schedule. -/
theorem inv_foldl {P : Sys → Prop} (fails : Nat → Bool)
    (hstep : ∀ s i, P s → P (step fails s i)) :
    ∀ (sched : List Nat) (s : Sys), P s → P (List.foldl (step fails) s sched)
  | [], _, hs => hs
  | i :: sched, s, hs => inv_foldl fails hstep sched _ (hstep s i hs)

/-- Program locations reachable only by the thread whose winner CAS succeeded:
the winner body (lines 146-162) and the exceptional exit path. -/
def winnerPath (p : PC) : Prop :=
  p = .makeRunner ∨ p = .runFn ∨ p = .doneCAS ∨ p = .failCAS ∨ p = .dtorErr ∨ p = .finishedErr

/-- Only threads that won the initial CAS are ever on the winner path. -/
def InvWon (s : Sys) : Prop :=
  ∀ (j : Nat) (u : ThreadState), s.threads[j]? = some u → winnerPath u.pc → u.won = true

theorem invWon_step (fails : Nat → Bool) (s : Sys) (i : Nat) (h : InvWon s) :
    InvWon (step fails s i) := by
  unfold InvWon at h ⊢
  have hs := step_shape fails s i
  generalize hgen : step fails s i = r at hs ⊢
  clear hgen
  cases hs with
  | stutter => exact h
  | load t heq hpc =>
    intro j u hu hp
    rcases set_lookup hu with ⟨rfl, rfl⟩ | hold
    · simp [winnerPath] at hp
    · exact h j u hold hp
  | seeDone t heq hpc he =>
    intro j u hu hp
    rcases set_lookup hu with ⟨rfl, rfl⟩ | hold
    · simp [winnerPath] at hp
    · exact h j u hold hp
  | seeZero t heq hpc he1 he0 =>
    intro j u hu hp
    rcases set_lookup hu with ⟨rfl, rfl⟩ | hold
    · simp [winnerPath] at hp
    · exact h j u hold hp
  | seeAddr t heq hpc he1 he0 =>
    intro j u hu hp
    rcases set_lookup hu with ⟨rfl, rfl⟩ | hold
    · simp [winnerPath] at hp
    · exact h j u hold hp
  | winCAS t heq hpc hst =>
    intro j u hu hp
    rcases set_lookup hu with ⟨rfl, rfl⟩ | hold
    · rfl
    · exact h j u hold hp
  | winMiss t heq hpc hst =>
    intro j u hu hp
    rcases set_lookup hu with ⟨rfl, rfl⟩ | hold
    · simp [winnerPath] at hp
    · exact h j u hold hp
  | mkRunner t heq hpc =>
    intro j u hu hp
    rcases set_lookup hu with ⟨rfl, rfl⟩ | hold
    · simpa using h i t heq (Or.inl hpc)
    · exact h j u hold hp
  | runOk t heq hpc hf =>
    intro j u hu hp
    rcases set_lookup hu with ⟨rfl, rfl⟩ | hold
    · simpa using h i t heq (Or.inr (Or.inl hpc))
    · exact h j u hold hp
  | runErr t heq hpc hf =>
    intro j u hu hp
    rcases set_lookup hu with ⟨rfl, rfl⟩ | hold
    · simpa using h i t heq (Or.inr (Or.inl hpc))
    · exact h j u hold hp
  | doneHit t heq hpc hst =>
    intro j u hu hp
    rcases set_lookup hu with ⟨rfl, rfl⟩ | hold
    · simp [winnerPath] at hp
    · exact h j u hold hp
  | failHit t heq hpc hst =>
    intro j u hu hp
    rcases set_lookup hu with ⟨rfl, rfl⟩ | hold
    · simpa using h i t heq (Or.inr (Or.inr (Or.inr (Or.inl hpc))))
    · exact h j u hold hp
  | spinPass t heq hpc hst =>
    intro j u hu hp
    rcases set_lookup hu with ⟨rfl, rfl⟩ | hold
    · simp [winnerPath] at hp
    · exact h j u hold hp
  | guardLow t heq hpc he =>
    intro j u hu hp
    rcases set_lookup hu with ⟨rfl, rfl⟩ | hold
    · simp [winnerPath] at hp
    · exact h j u hold hp
  | guardHit t heq hpc he hst =>
    intro j u hu hp
    rcases set_lookup hu with ⟨rfl, rfl⟩ | hold
    · simp [winnerPath] at hp
    · exact h j u hold hp
  | guardMiss t heq hpc he hst =>
    intro j u hu hp
    rcases set_lookup hu with ⟨rfl, rfl⟩ | hold
    · simp [winnerPath] at hp
    · exact h j u hold hp
  | checkNull t heq hpc hm =>
    intro j u hu hp
    rcases set_lookup hu with ⟨rfl, rfl⟩ | hold
    · simp [winnerPath] at hp
    · exact h j u hold hp
  | checkSome t heq hpc hm hlt =>
    intro j u hu hp
    rcases set_lookup hu with ⟨rfl, rfl⟩ | hold
    · simp [winnerPath] at hp
    · exact h j u hold hp
  | checkStuck t heq hpc hm hge =>
    intro j u hu hp
    rcases set_lookup hu with ⟨rfl, rfl⟩ | hold
    · simp [winnerPath] at hp
    · exact h j u hold hp
  | initPass t tr heq hpc ht hi =>
    intro j u hu hp
    rcases set_lookup hu with ⟨rfl, rfl⟩ | hold
    · simp [winnerPath] at hp
    · exact h j u hold hp
  | incSelf t heq hpc hsame =>
    intro j u hu hp
    rcases set_lookup hu with ⟨rfl, rfl⟩ | hold
    · simp [winnerPath] at hp
    · exact h j u hold hp
  | incOther t tr heq hpc hne ht =>
    intro j u hu hp
    rcases set_lookup hu with ⟨rfl, rfl⟩ | hold
    · simpa using h t.target tr ht hp
    · rcases set_lookup hold with ⟨rfl, rfl⟩ | hold2
      · simp [winnerPath] at hp
      · exact h j u hold2 hp
  | subCount t heq hpc =>
    intro j u hu hp
    rcases set_lookup hu with ⟨rfl, rfl⟩ | hold
    · simp [winnerPath] at hp
    · exact h j u hold hp
  | assistPass t tr heq hpc ht hw =>
    intro j u hu hp
    rcases set_lookup hu with ⟨rfl, rfl⟩ | hold
    · simp [winnerPath] at hp
    · exact h j u hold hp
  | decSelf t heq hpc hsame =>
    intro j u hu hp
    rcases set_lookup hu with ⟨rfl, rfl⟩ | hold
    · simp [winnerPath] at hp
    · exact h j u hold hp
  | decOther t tr heq hpc hne ht =>
    intro j u hu hp
    rcases set_lookup hu with ⟨rfl, rfl⟩ | hold
    · simpa using h t.target tr ht hp
    · rcases set_lookup hold with ⟨rfl, rfl⟩ | hold2
      · simp [winnerPath] at hp
      · exact h j u hold2 hp
  | dtorFire t heq hpc hrc =>
    intro j u hu hp
    rcases set_lookup hu with ⟨rfl, rfl⟩ | hold
    · simp [winnerPath] at hp
    · exact h j u hold hp
  | dtorFireErr t heq hpc hrc =>
    intro j u hu hp
    rcases set_lookup hu with ⟨rfl, rfl⟩ | hold
    · simpa using h i t heq (Or.inr (Or.inr (Or.inr (Or.inr (Or.inl hpc)))))
    · exact h j u hold hp

theorem invWon_exec (fails : Nat → Bool) (n : Nat) (sched : List Nat) :
    InvWon (exec fails n sched) := by
  apply inv_foldl fails (fun s i hs => invWon_step fails s i hs)
  unfold InvWon
  intro j u hu hp
  rw [show (initSys n).threads = List.replicate n initTS from rfl,
    List.getElem?_replicate] at hu
  split at hu
  · cases hu
    simp [winnerPath, initTS] at hp
  · cases hu

/-- C8: the assist path never executes the functor and never surfaces its
failure.  First: a step of a thread inside `assist` (cooperatively waiting on
the runner's completion counter with its local stub `task_group_context`)
never changes the functor-run count or the flag word, and leaves the thread
either still waiting or at the deregistration step — never at an exceptional
location.  Second: the functor-run count changes only when a thread at
`run_once` steps, i.e. only the winner's call ever executes the functor.
Third: in every reachable state, any thread at `run_once`, at the failure
reset, or exiting exceptionally is a thread whose winner CAS succeeded: a
failure is surfaced only to the winning caller, and an assisting thread never
observes or propagates it. -/
theorem c8_assist_no_failure :
    (∀ (fails : Nat → Bool) (s : Sys) (i : Nat) (t : ThreadState),
      s.threads[i]? = some t → t.pc = .mAssist →
      (step fails s i).fnRuns = s.fnRuns ∧ (step fails s i).myState = s.myState ∧
      (((step fails s i).threads.getD i initTS).pc = .mAssist ∨
        ((step fails s i).threads.getD i initTS).pc = .mDecRef)) ∧
    (∀ (fails : Nat → Bool) (s : Sys) (i : Nat),
      (step fails s i).fnRuns ≠ s.fnRuns →
      ∃ t, s.threads[i]? = some t ∧ t.pc = .runFn) ∧
    (∀ (fails : Nat → Bool) (n : Nat) (sched : List Nat) (j : Nat) (u : ThreadState),
      (exec fails n sched).threads[j]? = some u →
      (u.pc = .runFn ∨ u.pc = .failCAS ∨ u.pc = .dtorErr ∨ u.pc = .finishedErr) →
      u.won = true) := by
  refine ⟨?_, ?_, ?_⟩
  · intro fails s i t h hpc
    have hlen : i < s.threads.length := (List.getElem?_eq_some_iff.mp h).1
    simp only [step, h, hpc]
    cases ht : s.threads[t.target]? with
    | none =>
      exact ⟨rfl, rfl, Or.inl (by rw [List.getD_eq_getElem?_getD, h]; exact hpc)⟩
    | some tr =>
      dsimp only
      by_cases hw : tr.workDone = true
      · rw [hw, if_pos rfl]
        exact ⟨rfl, rfl, Or.inr (by
          rw [List.getD_eq_getElem?_getD, List.getElem?_set_self hlen]; rfl)⟩
      · rw [eq_false_of_ne_true hw, if_neg Bool.false_ne_true]
        exact ⟨rfl, rfl, Or.inl (by rw [List.getD_eq_getElem?_getD, h]; exact hpc)⟩
  · intro fails s i
    have hs := step_shape fails s i
    generalize hgen : step fails s i = r at hs ⊢
    clear hgen
    cases hs <;> intro hne <;>
      first
        | exact ⟨_, by assumption, by assumption⟩
        | exact absurd rfl hne
  · intro fails n sched j u hu hp
    refine invWon_exec fails n sched j u hu ?_
    rcases hp with hp | hp | hp | hp
    · exact Or.inr (Or.inl hp)
    · exact Or.inr (Or.inr (Or.inr (Or.inl hp)))
    · exact Or.inr (Or.inr (Or.inr (Or.inr (Or.inl hp))))
    · exact Or.inr (Or.inr (Or.inr (Or.inr (Or.inr hp))))

/-- Closed instance of `c8_assist_no_failure`: an assisting step on a
one-thread system neither runs the functor nor moves the word. -/
theorem c8_assist_no_failure_w :
    (step failsZero { myState := 256, threads := [{ initTS with pc := PC.mAssist }],
                      fnRuns := 1, winner := none } 0).fnRuns = 1 := by
  exact (c8_assist_no_failure.1 failsZero
    { myState := 256, threads := [{ initTS with pc := PC.mAssist }], fnRuns := 1, winner := none }
    0 { initTS with pc := PC.mAssist } rfl rfl).1

/-! ### Admission-count / refCount handoff (assisting threads) -/

/-- Locations between `increase_ref` (line 176, done) and `decrease_ref`
(line 183, not yet done). -/
def holdsPC (p : PC) : Bool :=
  match p with
  | .mFetchSub | .mAssist | .mDecRef => true
  | _ => false

/-- `holdsRef r u`: thread `u` has already executed `increase_ref` on the
runner of thread `r` and not yet executed `decrease_ref` (it sits between
line 176 and line 183 with `target = r`). -/
def holdsRef (r : Nat) (u : ThreadState) : Bool :=
  holdsPC u.pc && (u.target == r)

@[simp]
theorem holdsPC_eval (p : PC) :
    holdsPC p = (decide (p = .mFetchSub) || decide (p = .mAssist) || decide (p = .mDecRef)) := by
  cases p <;> rfl

/-- Invariant tying the assist path to the two protection counters:
threads between registration and `fetch_sub` still carry their admission-count
increment (`registered`); a thread at the runner decode is either registered
or saw a terminal sentinel; threads on the assist path have an in-range
decoded target; and every runner's `ref_count` equals the number of threads
currently holding a reference on it. -/
structure InvRef (l : List ThreadState) : Prop where
  reg : ∀ (j : Nat) (u : ThreadState), l[j]? = some u →
    (u.pc = .mWaitInit ∨ u.pc = .mIncRef) → u.registered = true
  chk : ∀ (j : Nat) (u : ThreadState), l[j]? = some u →
    u.pc = .mCheckRunner → u.registered = true ∨ u.expected ≤ 1
  tgt : ∀ (j : Nat) (u : ThreadState), l[j]? = some u →
    (u.pc = .mWaitInit ∨ u.pc = .mIncRef ∨ u.pc = .mFetchSub ∨ u.pc = .mAssist ∨
      u.pc = .mDecRef) → u.target < l.length
  cnt : ∀ (r : Nat) (tr : ThreadState), l[r]? = some tr →
    tr.refCount = l.countP (holdsRef r)

/-- An entry read through `getElem?` is the entry read through `getElem`. -/
theorem lookup_getElem {l : List ThreadState} {i : Nat} {t : ThreadState}
    (h : l[i]? = some t) : ∃ hlt : i < l.length, l[i] = t :=
  List.getElem?_eq_some_iff.mp h

/-- A satisfied entry makes `countP` positive. -/
theorem countP_pos_of_lookup {p : ThreadState → Bool} {l : List ThreadState} {i : Nat}
    {t : ThreadState} (h : l[i]? = some t) (hp : p t = true) : 1 ≤ l.countP p := by
  obtain ⟨hlt, hget⟩ := lookup_getElem h
  exact List.countP_pos_iff.mpr ⟨t, hget ▸ List.getElem_mem hlt, hp⟩

/-- `countP` after overwriting one entry with a predicate-equivalent one. -/
theorem countP_set_congr {p : ThreadState → Bool} {l : List ThreadState} {i : Nat}
    {t a : ThreadState} (h : l[i]? = some t) (hp : p a = p t) :
    (l.set i a).countP p = l.countP p := by
  obtain ⟨hlt, hget⟩ := lookup_getElem h
  rw [List.countP_set p l i a hlt, hget, hp]
  cases hv : p t
  · simp [hv]
  · have := countP_pos_of_lookup h hv
    simp only [hv, if_true]
    omega

/-- `countP` after overwriting one entry that did not satisfy the predicate
with one that does. -/
theorem countP_set_incr {p : ThreadState → Bool} {l : List ThreadState} {i : Nat}
    {t a : ThreadState} (h : l[i]? = some t) (hf : p t = false) (ht : p a = true) :
    (l.set i a).countP p = l.countP p + 1 := by
  obtain ⟨hlt, hget⟩ := lookup_getElem h
  rw [List.countP_set p l i a hlt, hget, hf, ht]
  simp

/-- `countP` after overwriting one entry that satisfied the predicate with one
that does not. -/
theorem countP_set_decr {p : ThreadState → Bool} {l : List ThreadState} {i : Nat}
    {t a : ThreadState} (h : l[i]? = some t) (hf : p t = true) (ht : p a = false) :
    (l.set i a).countP p = l.countP p - 1 := by
  obtain ⟨hlt, hget⟩ := lookup_getElem h
  rw [List.countP_set p l i a hlt, hget, hf, ht]
  simp

/-- The `cnt` field survives a predicate-neutral, refCount-preserving
overwrite of one entry. -/
theorem cnt_set_neutral {l : List ThreadState} {i : Nat} {t a : ThreadState}
    (hcnt : ∀ (r : Nat) (tr : ThreadState), l[r]? = some tr →
      tr.refCount = l.countP (holdsRef r))
    (heq : l[i]? = some t)
    (hpred : ∀ r, holdsRef r a = holdsRef r t) (hrc : a.refCount = t.refCount) :
    ∀ (r : Nat) (tr : ThreadState), (l.set i a)[r]? = some tr →
      tr.refCount = (l.set i a).countP (holdsRef r) := by
  intro r tr hr
  rw [countP_set_congr heq (hpred r)]
  rcases set_lookup hr with ⟨rfl, rfl⟩ | hold
  · rw [hrc]
    exact hcnt i t heq
  · exact hcnt r tr hold

/-- All of `InvRef` survives an overwrite of one entry that respects the
registration and target constraints, does not change which runner the entry
holds a reference on, and keeps its `refCount`. -/
theorem invRef_set {l : List ThreadState} {i : Nat} {t a : ThreadState}
    (hI : InvRef l) (heq : l[i]? = some t)
    (hreg : (a.pc = .mWaitInit ∨ a.pc = .mIncRef) → a.registered = true)
    (hchk : a.pc = .mCheckRunner → a.registered = true ∨ a.expected ≤ 1)
    (htgt : (a.pc = .mWaitInit ∨ a.pc = .mIncRef ∨ a.pc = .mFetchSub ∨ a.pc = .mAssist ∨
      a.pc = .mDecRef) → a.target < l.length)
    (hpred : ∀ r, holdsRef r a = holdsRef r t)
    (hrc : a.refCount = t.refCount) : InvRef (l.set i a) := by
  refine ⟨?_, ?_, ?_, cnt_set_neutral hI.cnt heq hpred hrc⟩
  · intro j u hu hp
    rcases set_lookup hu with ⟨rfl, rfl⟩ | hold
    · exact hreg hp
    · exact hI.reg j u hold hp
  · intro j u hu hp
    rcases set_lookup hu with ⟨rfl, rfl⟩ | hold
    · exact hchk hp
    · exact hI.chk j u hold hp
  · intro j u hu hp
    rw [List.length_set]
    rcases set_lookup hu with ⟨rfl, rfl⟩ | hold
    · exact htgt hp
    · exact hI.tgt j u hold hp

/-- As `set_lookup`, exposing that an untouched entry has a different index. -/
theorem set_lookup' {l : List ThreadState} {i j : Nat} {a u : ThreadState}
    (h : (l.set i a)[j]? = some u) : (i = j ∧ u = a) ∨ (i ≠ j ∧ l[j]? = some u) := by
  rw [List.getElem?_set] at h
  split at h
  · next hij =>
    split at h
    · exact Or.inl ⟨hij, (Option.some.injEq a u).mp h |>.symm⟩
    · cases h
  · next hij => exact Or.inr ⟨hij, h⟩

theorem invRef_step (fails : Nat → Bool) (s : Sys) (i : Nat) (hI : InvRef s.threads) :
    InvRef (step fails s i).threads := by
  have hs := step_shape fails s i
  generalize hgen : step fails s i = r at hs ⊢
  clear hgen
  cases hs with
  | stutter => exact hI
  | load t heq hpc =>
    exact invRef_set hI heq (by simp) (by simp) (by simp)
      (fun r => by simp [holdsRef, holdsPC, hpc]) rfl
  | seeDone t heq hpc he =>
    exact invRef_set hI heq (by simp) (by simp) (by simp)
      (fun r => by simp [holdsRef, holdsPC, hpc]) rfl
  | seeZero t heq hpc he1 he0 =>
    exact invRef_set hI heq (by simp) (by simp) (by simp)
      (fun r => by simp [holdsRef, holdsPC, hpc]) rfl
  | seeAddr t heq hpc he1 he0 =>
    exact invRef_set hI heq (by simp) (by simp) (by simp)
      (fun r => by simp [holdsRef, holdsPC, hpc]) rfl
  | winCAS t heq hpc hst =>
    exact invRef_set hI heq (by simp) (by simp) (by simp)
      (fun r => by simp [holdsRef, holdsPC, hpc]) rfl
  | winMiss t heq hpc hst =>
    exact invRef_set hI heq (by simp) (by simp) (by simp)
      (fun r => by simp [holdsRef, holdsPC, hpc]) rfl
  | mkRunner t heq hpc =>
    exact invRef_set hI heq (by simp) (by simp) (by simp)
      (fun r => by simp [holdsRef, holdsPC, hpc]) rfl
  | runOk t heq hpc hf =>
    exact invRef_set hI heq (by simp) (by simp) (by simp)
      (fun r => by simp [holdsRef, holdsPC, hpc]) rfl
  | runErr t heq hpc hf =>
    exact invRef_set hI heq (by simp) (by simp) (by simp)
      (fun r => by simp [holdsRef, holdsPC, hpc]) rfl
  | doneHit t heq hpc hst =>
    exact invRef_set hI heq (by simp) (by simp) (by simp)
      (fun r => by simp [holdsRef, holdsPC, hpc]) rfl
  | failHit t heq hpc hst =>
    exact invRef_set hI heq (by simp) (by simp) (by simp)
      (fun r => by simp [holdsRef, holdsPC, hpc]) rfl
  | spinPass t heq hpc hst =>
    exact invRef_set hI heq (by simp) (by simp) (by simp)
      (fun r => by simp [holdsRef, holdsPC, hpc]) rfl
  | guardLow t heq hpc he =>
    exact invRef_set hI heq (by simp) (fun _ => Or.inr he) (by simp)
      (fun r => by simp [holdsRef, holdsPC, hpc]) rfl
  | guardHit t heq hpc he hst =>
    exact invRef_set hI heq (by simp) (fun _ => Or.inl rfl) (by simp)
      (fun r => by simp [holdsRef, holdsPC, hpc]) rfl
  | guardMiss t heq hpc he hst =>
    exact invRef_set hI heq (by simp) (by simp) (by simp)
      (fun r => by simp [holdsRef, holdsPC, hpc]) rfl
  | checkNull t heq hpc hm =>
    exact invRef_set hI heq (by simp) (by simp) (by simp)
      (fun r => by simp [holdsRef, holdsPC, hpc]) rfl
  | checkSome t heq hpc hm hlt =>
    refine invRef_set hI heq (fun _ => ?_) (by simp) (fun _ => by simpa using hlt)
      (fun r => by simp [holdsRef, holdsPC, hpc]) rfl
    rcases hI.chk i t heq hpc with hr | hle
    · simpa using hr
    · exfalso
      apply hm
      interval_cases he : t.expected <;> decide
  | checkStuck t heq hpc hm hge =>
    exact invRef_set hI heq (by simp) (by simp) (by simp)
      (fun r => by simp [holdsRef, holdsPC, hpc]) rfl
  | initPass t tr heq hpc ht hi =>
    refine invRef_set hI heq (fun _ => ?_) (by simp) (fun _ => ?_)
      (fun r => by simp [holdsRef, holdsPC, hpc]) rfl
    · simpa using hI.reg i t heq (Or.inl hpc)
    · simpa using hI.tgt i t heq (Or.inl hpc)
  | subCount t heq hpc =>
    refine invRef_set hI heq (by simp) (by simp) (fun _ => ?_)
      (fun r => by simp [holdsRef, holdsPC, hpc]) rfl
    simpa using hI.tgt i t heq (Or.inr (Or.inr (Or.inl hpc)))
  | assistPass t tr heq hpc ht hw =>
    refine invRef_set hI heq (by simp) (by simp) (fun _ => ?_)
      (fun r => by simp [holdsRef, holdsPC, hpc]) rfl
    simpa using hI.tgt i t heq (Or.inr (Or.inr (Or.inr (Or.inl hpc))))
  | incSelf t heq hpc hsame =>
    refine ⟨?_, ?_, ?_, ?_⟩
    · intro j u hu hp
      rcases set_lookup hu with ⟨rfl, rfl⟩ | hold
      · simp at hp
      · exact hI.reg j u hold hp
    · intro j u hu hp
      rcases set_lookup hu with ⟨rfl, rfl⟩ | hold
      · simp at hp
      · exact hI.chk j u hold hp
    · intro j u hu hp
      rw [List.length_set]
      rcases set_lookup hu with ⟨rfl, rfl⟩ | hold
      · simpa using hI.tgt i t heq (Or.inr (Or.inl hpc))
      · exact hI.tgt j u hold hp
    · intro r tr hr
      by_cases hri : i = r
      · subst hri
        rcases set_lookup' hr with ⟨_, rfl⟩ | ⟨hne, _⟩
        · rw [countP_set_incr heq (by simp [holdsRef, holdsPC, hpc])
            (by simp [holdsRef, holdsPC, hsame])]
          exact congrArg (· + 1) (hI.cnt i t heq)
        · exact absurd rfl hne
      · rcases set_lookup' hr with ⟨hri', _⟩ | ⟨_, hold⟩
        · exact absurd hri' hri
        · rw [countP_set_congr heq ?_]
          · exact hI.cnt r tr hold
          · simp only [holdsRef, holdsPC, hpc, hsame]
            simp [beq_eq_false_iff_ne.mpr hri]
  | incOther t tr heq hpc hne ht =>
    have htlt : t.target < s.threads.length := (List.getElem?_eq_some_iff.mp ht).1
    have hilt : i < s.threads.length := (List.getElem?_eq_some_iff.mp heq).1
    have hmid : (s.threads.set i { t with pc := .mFetchSub })[t.target]? = some tr := by
      rw [List.getElem?_set_ne (Ne.symm hne)]
      exact ht
    refine ⟨?_, ?_, ?_, ?_⟩
    · intro j u hu hp
      rcases set_lookup hu with ⟨rfl, rfl⟩ | hold
      · simpa using hI.reg t.target tr ht (by simpa using hp)
      · rcases set_lookup hold with ⟨rfl, rfl⟩ | hold2
        · simp at hp
        · exact hI.reg j u hold2 hp
    · intro j u hu hp
      rcases set_lookup hu with ⟨rfl, rfl⟩ | hold
      · simpa using hI.chk t.target tr ht (by simpa using hp)
      · rcases set_lookup hold with ⟨rfl, rfl⟩ | hold2
        · simp at hp
        · exact hI.chk j u hold2 hp
    · intro j u hu hp
      rw [List.length_set, List.length_set]
      rcases set_lookup hu with ⟨rfl, rfl⟩ | hold
      · simpa using hI.tgt t.target tr ht (by simpa using hp)
      · rcases set_lookup hold with ⟨rfl, rfl⟩ | hold2
        · simpa using hI.tgt i t heq (Or.inr (Or.inl hpc))
        · exact hI.tgt j u hold2 hp
    · intro r u hr
      have hcongr2 : ∀ rr : Nat,
          holdsRef rr { tr with refCount := tr.refCount + 1 } = holdsRef rr tr := by
        intro rr
        simp [holdsRef, holdsPC]
      by_cases hrt : t.target = r
      · subst hrt
        rcases set_lookup' hr with ⟨_, rfl⟩ | ⟨hne2, _⟩
        · rw [countP_set_congr hmid (hcongr2 t.target),
            countP_set_incr heq (by simp [holdsRef, holdsPC, hpc]) (by simp [holdsRef, holdsPC])]
          exact congrArg (· + 1) (hI.cnt t.target tr ht)
        · exact absurd rfl hne2
      · rcases set_lookup' hr with ⟨hrt', _⟩ | ⟨_, hold⟩
        · exact absurd hrt' hrt
        · rw [countP_set_congr hmid (hcongr2 r), countP_set_congr heq ?_]
          · rcases set_lookup' hold with ⟨rfl, rfl⟩ | ⟨_, hold2⟩
            · exact hI.cnt i t heq
            · exact hI.cnt r u hold2
          · simp only [holdsRef, holdsPC, hpc]
            simp [beq_eq_false_iff_ne.mpr hrt]
  | decSelf t heq hpc hsame =>
    refine ⟨?_, ?_, ?_, ?_⟩
    · intro j u hu hp
      rcases set_lookup hu with ⟨rfl, rfl⟩ | hold
      · simp at hp
      · exact hI.reg j u hold hp
    · intro j u hu hp
      rcases set_lookup hu with ⟨rfl, rfl⟩ | hold
      · simp at hp
      · exact hI.chk j u hold hp
    · intro j u hu hp
      rw [List.length_set]
      rcases set_lookup hu with ⟨rfl, rfl⟩ | hold
      · simp at hp
      · exact hI.tgt j u hold hp
    · intro r tr hr
      by_cases hri : i = r
      · subst hri
        rcases set_lookup' hr with ⟨_, rfl⟩ | ⟨hne, _⟩
        · rw [countP_set_decr heq (by simp [holdsRef, hpc, hsame])
            (by simp [holdsRef, holdsPC])]
          simpa using congrArg (· - 1) (hI.cnt i t heq)
        · exact absurd rfl hne
      · rcases set_lookup' hr with ⟨hri', _⟩ | ⟨_, hold⟩
        · exact absurd hri' hri
        · rw [countP_set_congr heq ?_]
          · exact hI.cnt r tr hold
          · simp only [holdsRef, holdsPC, hpc, hsame]
            simp [beq_eq_false_iff_ne.mpr hri]
  | decOther t tr heq hpc hne ht =>
    have hmid : (s.threads.set i { t with pc := .loopHead })[t.target]? = some tr := by
      rw [List.getElem?_set_ne (Ne.symm hne)]
      exact ht
    refine ⟨?_, ?_, ?_, ?_⟩
    · intro j u hu hp
      rcases set_lookup hu with ⟨rfl, rfl⟩ | hold
      · simpa using hI.reg t.target tr ht (by simpa using hp)
      · rcases set_lookup hold with ⟨rfl, rfl⟩ | hold2
        · simp at hp
        · exact hI.reg j u hold2 hp
    · intro j u hu hp
      rcases set_lookup hu with ⟨rfl, rfl⟩ | hold
      · simpa using hI.chk t.target tr ht (by simpa using hp)
      · rcases set_lookup hold with ⟨rfl, rfl⟩ | hold2
        · simp at hp
        · exact hI.chk j u hold2 hp
    · intro j u hu hp
      rw [List.length_set, List.length_set]
      rcases set_lookup hu with ⟨rfl, rfl⟩ | hold
      · simpa using hI.tgt t.target tr ht (by simpa using hp)
      · rcases set_lookup hold with ⟨rfl, rfl⟩ | hold2
        · simp at hp
        · exact hI.tgt j u hold2 hp
    · intro r u hr
      have hcongr2 : ∀ rr : Nat,
          holdsRef rr { tr with refCount := tr.refCount - 1 } = holdsRef rr tr := by
        intro rr
        simp [holdsRef, holdsPC]
      by_cases hrt : t.target = r
      · subst hrt
        rcases set_lookup' hr with ⟨_, rfl⟩ | ⟨hne2, _⟩
        · rw [countP_set_congr hmid (hcongr2 t.target),
            countP_set_decr heq (by simp [holdsRef, holdsPC, hpc]) (by simp [holdsRef, holdsPC])]
          simpa using congrArg (· - 1) (hI.cnt t.target tr ht)
        · exact absurd rfl hne2
      · rcases set_lookup' hr with ⟨hrt', _⟩ | ⟨_, hold⟩
        · exact absurd hrt' hrt
        · rw [countP_set_congr hmid (hcongr2 r), countP_set_congr heq ?_]
          · rcases set_lookup' hold with ⟨rfl, rfl⟩ | ⟨_, hold2⟩
            · exact hI.cnt i t heq
            · exact hI.cnt r u hold2
          · simp only [holdsRef, holdsPC, hpc]
            simp [beq_eq_false_iff_ne.mpr hrt]
  | dtorFire t heq hpc hrc =>
    exact invRef_set hI heq (by simp) (by simp) (by simp)
      (fun r => by simp [holdsRef, holdsPC, hpc]) rfl
  | dtorFireErr t heq hpc hrc =>
    exact invRef_set hI heq (by simp) (by simp) (by simp)
      (fun r => by simp [holdsRef, holdsPC, hpc]) rfl

theorem invRef_exec (fails : Nat → Bool) (n : Nat) (sched : List Nat) :
    InvRef (exec fails n sched).threads := by
  have base : InvRef (initSys n).threads := by
    have hlook : ∀ (j : Nat) (u : ThreadState), (initSys n).threads[j]? = some u → u = initTS := by
      intro j u hu
      rw [show (initSys n).threads = List.replicate n initTS from rfl,
        List.getElem?_replicate] at hu
      split at hu
      · cases hu; rfl
      · cases hu
    refine ⟨?_, ?_, ?_, ?_⟩
    · intro j u hu hp
      rw [hlook j u hu] at hp
      simp [initTS] at hp
    · intro j u hu hp
      rw [hlook j u hu] at hp
      simp [initTS] at hp
    · intro j u hu hp
      rw [hlook j u hu] at hp
      simp [initTS] at hp
    · intro r tr hr
      rw [hlook r tr hr]
      have : ∀ a ∈ (initSys n).threads, ¬holdsRef r a = true := by
        intro a ha
        rw [show (initSys n).threads = List.replicate n initTS from rfl] at ha
        rw [(List.eq_of_mem_replicate ha : a = initTS)]
        simp [holdsRef, initTS]
      rw [List.countP_eq_zero.mpr this]
      rfl
  exact inv_foldl fails (fun s i hs => invRef_step fails s i hs) sched _ base

/-- C6: the admission-count-to-refCount handoff, with no gap.  First: in every
reachable state, a thread between successful registration and its
`my_state.fetch_sub(1)` (at `wait_for_init` or `increase_ref`) still carries
its admission-count increment (`registered`), and a thread anywhere after its
`increase_ref` and before its `decrease_ref` — in particular already at the
`fetch_sub`, i.e. before the admission count is released — targets a live
entry whose `ref_count` is at least 1.  Second: the `increase_ref` step
happens strictly before the count release: it bumps the target runner's
`ref_count`, leaves the flag word untouched, and moves the thread to the
`fetch_sub`.  Third: only then does the `fetch_sub` step decrement the flag
word, moving the thread on to `assist` with its registration released. -/
theorem c6_protection_handoff :
    (∀ (fails : Nat → Bool) (n : Nat) (sched : List Nat) (j : Nat) (u : ThreadState),
      (exec fails n sched).threads[j]? = some u →
      ((u.pc = .mWaitInit ∨ u.pc = .mIncRef) → u.registered = true) ∧
      ((u.pc = .mFetchSub ∨ u.pc = .mAssist ∨ u.pc = .mDecRef) →
        ∃ tr, (exec fails n sched).threads[u.target]? = some tr ∧ 1 ≤ tr.refCount)) ∧
    (∀ (fails : Nat → Bool) (s : Sys) (i : Nat) (t tr : ThreadState),
      s.threads[i]? = some t → t.pc = .mIncRef → t.target ≠ i →
      s.threads[t.target]? = some tr →
      (step fails s i).myState = s.myState ∧
      (step fails s i).threads[t.target]? = some { tr with refCount := tr.refCount + 1 } ∧
      ((step fails s i).threads.getD i initTS).pc = .mFetchSub) ∧
    (∀ (fails : Nat → Bool) (s : Sys) (i : Nat) (t : ThreadState),
      s.threads[i]? = some t → t.pc = .mFetchSub →
      (step fails s i).myState = (s.myState + (W - 1)) % W ∧
      ((step fails s i).threads.getD i initTS).pc = .mAssist ∧
      ((step fails s i).threads.getD i initTS).registered = false) := by
  refine ⟨?_, ?_, ?_⟩
  · intro fails n sched j u hu
    have hI := invRef_exec fails n sched
    refine ⟨hI.reg j u hu, fun hp => ?_⟩
    have htgt : u.target < (exec fails n sched).threads.length :=
      hI.tgt j u hu (by tauto)
    refine ⟨_, List.getElem?_eq_getElem htgt, ?_⟩
    rw [hI.cnt u.target _ (List.getElem?_eq_getElem htgt)]
    apply countP_pos_of_lookup hu
    rcases hp with hp | hp | hp <;> simp [holdsRef, hp]
  · intro fails s i t tr h hpc hne ht
    have hilt : i < s.threads.length := (List.getElem?_eq_some_iff.mp h).1
    have htlt : t.target < s.threads.length := (List.getElem?_eq_some_iff.mp ht).1
    refine ⟨?_, ?_, ?_⟩
    · simp only [step, h, hpc, if_neg hne, ht]
    · simp only [step, h, hpc, if_neg hne, ht]
      rw [List.getElem?_set_self (by simpa using htlt)]
    · simp only [step, h, hpc, if_neg hne, ht]
      rw [List.getD_eq_getElem?_getD, List.getElem?_set_ne hne,
        List.getElem?_set_self hilt]
      rfl
  · intro fails s i t h hpc
    have hilt : i < s.threads.length := (List.getElem?_eq_some_iff.mp h).1
    refine ⟨?_, ?_, ?_⟩
    · simp only [step, h, hpc]
    · simp only [step, h, hpc]
      rw [List.getD_eq_getElem?_getD, List.getElem?_set_self hilt]
      rfl
    · simp only [step, h, hpc]
      rw [List.getD_eq_getElem?_getD, List.getElem?_set_self hilt]
      rfl

/-- Closed instance of `c6_protection_handoff`: thread 1 at `increase_ref` on
thread 0's runner bumps its `ref_count` before touching the flag word. -/
theorem c6_protection_handoff_w :
    (step ff { myState := 129,
               threads := [{ initTS with pc := PC.doneCAS, won := true, inited := true },
                 { initTS with pc := PC.mIncRef, expected := 129, registered := true }],
               fnRuns := 1, winner := some 0 } 1).myState = 129 := by
  exact ((c6_protection_handoff.2.1 ff
    { myState := 129,
      threads := [{ initTS with pc := PC.doneCAS, won := true, inited := true },
        { initTS with pc := PC.mIncRef, expected := 129, registered := true }],
      fnRuns := 1, winner := some 0 } 1
    { initTS with pc := PC.mIncRef, expected := 129, registered := true }
    { initTS with pc := PC.doneCAS, won := true, inited := true }
    rfl rfl (by decide) rfl).1)

/-! ### Exactly-once execution on failure-free runs -/

/-- Locations of the loop before anyone has won. -/
def prePos (p : PC) : Prop := p = .start ∨ p = .loopHead ∨ p = .tryWin

/-- Locations a winner occupies from its CAS to its return (no failure). -/
def winnerPos (p : PC) : Prop :=
  p = .makeRunner ∨ p = .runFn ∨ p = .doneCAS ∨ p = .dtorOk ∨ p = .finishedOk

/-- Locations of a thread whose registration increment is still in the word. -/
def regPos (p : PC) : Prop :=
  p = .mCheckRunner ∨ p = .mWaitInit ∨ p = .mIncRef ∨ p = .mFetchSub ∨ p = .stuck

/-- Locations strictly between registration and the `fetch_sub`. -/
def waitPos (p : PC) : Prop := p = .mWaitInit ∨ p = .mIncRef ∨ p = .mFetchSub

/-- Exceptional locations (winner whose functor raised). -/
def errPos (p : PC) : Prop := p = .failCAS ∨ p = .dtorErr ∨ p = .finishedErr

/-- Number of registration increments currently tagged into the flag word. -/
def regN (l : List ThreadState) : Nat := l.countP (fun u => u.registered)

/-- Inductive invariant of failure-free executions.  The flag word is
`0` before any winner exists, and afterwards it is `addrOf w + regN` for the
unique winner `w` until the winner's done-CAS, which requires the registration
count to have drained and pins the word at `done` forever; the functor has run
exactly once as soon as the winner passes `run_once`.  The per-thread clauses
tie registration flags, `expected` values, and locations together. -/
structure Inv2 (n : Nat) (s : Sys) : Prop where
  len : s.threads.length = n
  pre : s.winner = none → s.myState = 0 ∧ s.fnRuns = 0 ∧
    ∀ (j : Nat) (u : ThreadState), s.threads[j]? = some u →
      prePos u.pc ∧ u.expected = 0 ∧ u.registered = false
  win : ∀ w : Nat, s.winner = some w → ∃ tw : ThreadState, s.threads[w]? = some tw ∧
    (((tw.pc = .makeRunner ∨ tw.pc = .runFn) ∧ s.fnRuns = 0 ∧
        s.myState = addrOf w + regN s.threads) ∨
      (tw.pc = .doneCAS ∧ s.fnRuns = 1 ∧ s.myState = addrOf w + regN s.threads) ∨
      ((tw.pc = .dtorOk ∨ tw.pc = .finishedOk) ∧ s.fnRuns = 1 ∧ s.myState = 1 ∧
        regN s.threads = 0))
  wpc : ∀ (j : Nat) (u : ThreadState), s.threads[j]? = some u →
    (u.pc = .makeRunner ∨ u.pc = .runFn ∨ u.pc = .doneCAS) → s.winner = some j
  nofail : ∀ (j : Nat) (u : ThreadState), s.threads[j]? = some u → ¬errPos u.pc
  regpc : ∀ (j : Nat) (u : ThreadState), s.threads[j]? = some u → u.registered = true →
    128 ≤ u.expected ∧ regPos u.pc
  chk2 : ∀ (j : Nat) (u : ThreadState), s.threads[j]? = some u → u.pc = .mCheckRunner →
    u.registered = true ∨ u.expected ≤ 1
  wreg : ∀ (j : Nat) (u : ThreadState), s.threads[j]? = some u → waitPos u.pc →
    u.registered = true
  expW : ∀ (j : Nat) (u : ThreadState), s.threads[j]? = some u → u.expected < W

/-- In-range thread indices have in-range, 128-aligned model addresses. -/
theorem addrOf_bounds {n w : Nat} (hn : 129 * (n + 1) < W) (hw : w < n) :
    addrOf w = 128 * (w + 1) ∧ 128 ≤ addrOf w ∧ addrOf w + n < W - 1 := by
  have hW : W = 2 ^ 64 := rfl
  have heq : addrOf w = 128 * (w + 1) := by
    rw [addrOf, max_nfs_size]
    exact Nat.mod_eq_of_lt (by omega)
  exact ⟨heq, by omega, by omega⟩

/-- The registration count never exceeds the number of threads. -/
theorem regN_le (l : List ThreadState) : regN l ≤ l.length :=
  List.countP_le_length _

/-- The flag word is always an in-range machine word. -/
theorem inv2_st_lt {n : Nat} {s : Sys} (hn : 129 * (n + 1) < W) (hI : Inv2 n s) :
    s.myState < W - 1 := by
  have hW : W = 2 ^ 64 := rfl
  cases hwin : s.winner with
  | none =>
    rw [(hI.pre hwin).1]
    omega
  | some w =>
    obtain ⟨tw, htw, hphase⟩ := hI.win w hwin
    have hwlt : w < n := hI.len ▸ (List.getElem?_eq_some_iff.mp htw).1
    have hb := addrOf_bounds hn hwlt
    have hr : regN s.threads ≤ n := hI.len ▸ regN_le s.threads
    rcases hphase with ⟨_, _, hst⟩ | ⟨_, _, hst⟩ | ⟨_, _, hst, _⟩ <;> rw [hst] <;> omega

/-- `regN` is unchanged by overwriting an entry with the same `registered`. -/
theorem regN_congr {l : List ThreadState} {i : Nat} {t a : ThreadState}
    (heq : l[i]? = some t) (h : a.registered = t.registered) :
    regN (l.set i a) = regN l :=
  countP_set_congr heq (by simp [h])

/-- Overwriting one entry of a state in a way that respects every per-thread
clause, is not on the winner path, and keeps the registration flag, preserves
the whole invariant (the word, functor count and winner are untouched). -/
theorem inv2_set {n : Nat} {s : Sys} {i : Nat} {t a : ThreadState}
    (hI : Inv2 n s) (heq : s.threads[i]? = some t)
    (hmoon : ¬winnerPos t.pc)
    (hareg : a.registered = t.registered)
    (hawin : ¬(a.pc = .makeRunner ∨ a.pc = .runFn ∨ a.pc = .doneCAS))
    (hanf : ¬errPos a.pc)
    (haregpc : a.registered = true → 128 ≤ a.expected ∧ regPos a.pc)
    (hachk : a.pc = .mCheckRunner → a.registered = true ∨ a.expected ≤ 1)
    (hawreg : waitPos a.pc → a.registered = true)
    (haexpW : a.expected < W)
    (hapre : s.winner = none → prePos a.pc ∧ a.expected = 0 ∧ a.registered = false) :
    Inv2 n { s with threads := s.threads.set i a } := by
  have hcarry : ∀ (j : Nat) (u : ThreadState), (s.threads.set i a)[j]? = some u →
      (i = j ∧ u = a) ∨ s.threads[j]? = some u := fun j u hu => set_lookup hu
  refine ⟨?_, ?_, ?_, ?_, ?_, ?_, ?_, ?_, ?_⟩
  · rw [List.length_set]
    exact hI.len
  · intro hw
    obtain ⟨h0, h1, h2⟩ := hI.pre hw
    refine ⟨h0, h1, ?_⟩
    intro j u hu
    rcases hcarry j u hu with ⟨rfl, rfl⟩ | hold
    · exact hapre hw
    · exact h2 j u hold
  · intro w hw
    obtain ⟨tw, htw, hphase⟩ := hI.win w hw
    have hiw : i ≠ w := by
      intro hiweq
      subst hiweq
      rw [heq] at htw
      cases htw
      rcases hphase with ⟨hp, _⟩ | ⟨hp, _⟩ | ⟨hp, _⟩
      · rcases hp with hp | hp <;> exact hmoon (by rw [hp]; simp [winnerPos])
      · exact hmoon (by rw [hp]; simp [winnerPos])
      · rcases hp with hp | hp <;> exact hmoon (by rw [hp]; simp [winnerPos])
    refine ⟨tw, ?_, ?_⟩
    · rw [List.getElem?_set_ne hiw]
      exact htw
    · rw [show ({ s with threads := s.threads.set i a } : Sys).threads
        = s.threads.set i a from rfl, regN_congr heq hareg]
      exact hphase
  · intro j u hu hp
    rcases hcarry j u hu with ⟨rfl, rfl⟩ | hold
    · exact absurd hp (by tauto)
    · exact hI.wpc j u hold hp
  · intro j u hu
    rcases hcarry j u hu with ⟨rfl, rfl⟩ | hold
    · exact hanf
    · exact hI.nofail j u hold
  · intro j u hu hr
    rcases hcarry j u hu with ⟨rfl, rfl⟩ | hold
    · exact haregpc hr
    · exact hI.regpc j u hold hr
  · intro j u hu hp
    rcases hcarry j u hu with ⟨rfl, rfl⟩ | hold
    · exact hachk hp
    · exact hI.chk2 j u hold hp
  · intro j u hu hp
    rcases hcarry j u hu with ⟨rfl, rfl⟩ | hold
    · exact hawreg hp
    · exact hI.wreg j u hold hp
  · intro j u hu
    rcases hcarry j u hu with ⟨rfl, rfl⟩ | hold
    · exact haexpW
    · exact hI.expW j u hold

/-- Changing only the `refCount` of one entry preserves the invariant. -/
theorem inv2_rc {n : Nat} {s : Sys} {r : Nat} {tr : ThreadState}
    (hI : Inv2 n s) (ht : s.threads[r]? = some tr) (x : Nat) :
    Inv2 n { s with threads := s.threads.set r { tr with refCount := x } } := by
  have hcarry : ∀ (j : Nat) (u : ThreadState),
      (s.threads.set r { tr with refCount := x })[j]? = some u →
      (r = j ∧ u = { tr with refCount := x }) ∨ s.threads[j]? = some u :=
    fun j u hu => set_lookup hu
  refine ⟨?_, ?_, ?_, ?_, ?_, ?_, ?_, ?_, ?_⟩
  · rw [List.length_set]
    exact hI.len
  · intro hw
    obtain ⟨h0, h1, h2⟩ := hI.pre hw
    refine ⟨h0, h1, ?_⟩
    intro j u hu
    rcases hcarry j u hu with ⟨rfl, rfl⟩ | hold
    · simpa using h2 r tr ht
    · exact h2 j u hold
  · intro w hw
    obtain ⟨tw, htw, hphase⟩ := hI.win w hw
    rw [show ({ s with threads := s.threads.set r { tr with refCount := x } } : Sys).threads
      = s.threads.set r { tr with refCount := x } from rfl]
    rw [regN_congr ht (show ({ tr with refCount := x } : ThreadState).registered
      = tr.registered from rfl)]
    by_cases hrw : r = w
    · subst hrw
      rw [ht] at htw
      cases htw
      exact ⟨{ tr with refCount := x },
        List.getElem?_set_self (List.getElem?_eq_some_iff.mp ht).1, by simpa using hphase⟩
    · exact ⟨tw, by rw [List.getElem?_set_ne hrw]; exact htw, hphase⟩
  · intro j u hu hp
    rcases hcarry j u hu with ⟨rfl, rfl⟩ | hold
    · simpa using hI.wpc r tr ht (by simpa using hp)
    · exact hI.wpc j u hold hp
  · intro j u hu
    rcases hcarry j u hu with ⟨rfl, rfl⟩ | hold
    · simpa using hI.nofail r tr ht
    · exact hI.nofail j u hold
  · intro j u hu hr
    rcases hcarry j u hu with ⟨rfl, rfl⟩ | hold
    · simpa using hI.regpc r tr ht (by simpa using hr)
    · exact hI.regpc j u hold hr
  · intro j u hu hp
    rcases hcarry j u hu with ⟨rfl, rfl⟩ | hold
    · simpa using hI.chk2 r tr ht (by simpa using hp)
    · exact hI.chk2 j u hold hp
  · intro j u hu hp
    rcases hcarry j u hu with ⟨rfl, rfl⟩ | hold
    · simpa using hI.wreg r tr ht (by simpa using hp)
    · exact hI.wreg j u hold hp
  · intro j u hu
    rcases hcarry j u hu with ⟨rfl, rfl⟩ | hold
    · simpa using hI.expW r tr ht
    · exact hI.expW j u hold

/-- Words with the low bits of a live tagged address never decode to null. -/
theorem maskoff_pos {x : Nat} (h128 : 128 ≤ x) (hW : x < W) : maskoff_pointer x ≠ 0 := by
  rw [maskoff_eq_div x hW]
  have : 1 ≤ x / 128 := (Nat.one_le_div_iff (by norm_num)).mpr h128
  positivity

/-- Terminal sentinels decode to null. -/
theorem maskoff_le_one {x : Nat} (h : x ≤ 1) : maskoff_pointer x = 0 := by
  interval_cases x <;> decide

/-- `fetch_sub(1)` on a live word is plain subtraction. -/
theorem predW_mod {x : Nat} (h1 : 1 ≤ x) (h2 : x < W) : (x + (W - 1)) % W = x - 1 := by
  have hW : W = 2 ^ 64 := rfl
  have h3 : x + (W - 1) = W + (x - 1) := by omega
  rw [h3, Nat.add_mod_left, Nat.mod_eq_of_lt (by omega)]

theorem inv2_step {n : Nat} (hn : 129 * (n + 1) < W) (s : Sys) (i : Nat)
    (hI : Inv2 n s) : Inv2 n (step ff s i) := by
  have hW : W = 2 ^ 64 := rfl
  have hs := step_shape ff s i
  generalize hgen : step ff s i = r at hs ⊢
  clear hgen
  cases hs with
  | stutter => exact hI
  | load t heq hpc =>
    refine inv2_set hI heq (by simp [winnerPos, hpc]) rfl (by simp) (by simp [errPos])
      (fun hr => absurd (hI.regpc i t heq (by simpa using hr)).2 (by simp [regPos, hpc]))
      (by simp) (by simp [waitPos])
      (by have := inv2_st_lt hn hI; simp only []; omega)
      (fun hw => ⟨Or.inr (Or.inl rfl), (hI.pre hw).1, by
        simpa using ((hI.pre hw).2.2 i t heq).2.2⟩)
  | seeDone t heq hpc he =>
    refine inv2_set hI heq (by simp [winnerPos, hpc]) rfl (by simp) (by simp [errPos])
      (fun hr => absurd (hI.regpc i t heq (by simpa using hr)).2 (by simp [regPos, hpc]))
      (by simp) (by simp [waitPos]) (by simpa using hI.expW i t heq)
      (fun hw => absurd ((hI.pre hw).2.2 i t heq).2.1 (by rw [he]; exact one_ne_zero))
  | seeZero t heq hpc he1 he0 =>
    refine inv2_set hI heq (by simp [winnerPos, hpc]) rfl (by simp) (by simp [errPos])
      (fun hr => absurd (hI.regpc i t heq (by simpa using hr)).2 (by simp [regPos, hpc]))
      (by simp) (by simp [waitPos]) (by simpa using hI.expW i t heq)
      (fun hw => ⟨Or.inr (Or.inr rfl), by simpa using he0, by
        simpa using ((hI.pre hw).2.2 i t heq).2.2⟩)
  | seeAddr t heq hpc he1 he0 =>
    refine inv2_set hI heq (by simp [winnerPos, hpc]) rfl (by simp) (by simp [errPos])
      (fun hr => absurd (hI.regpc i t heq (by simpa using hr)).2 (by simp [regPos, hpc]))
      (by simp) (by simp [waitPos]) (by simpa using hI.expW i t heq)
      (fun hw => absurd ((hI.pre hw).2.2 i t heq).2.1 he0)
  | winCAS t heq hpc hst =>
    have hilt : i < s.threads.length := (List.getElem?_eq_some_iff.mp heq).1
    have hwnone : s.winner = none := by
      cases hw : s.winner with
      | none => rfl
      | some w =>
        obtain ⟨tw, htw, hphase⟩ := hI.win w hw
        have hwlt : w < n := hI.len ▸ (List.getElem?_eq_some_iff.mp htw).1
        have hb := (addrOf_bounds hn hwlt).2.1
        rcases hphase with ⟨_, _, hstw⟩ | ⟨_, _, hstw⟩ | ⟨_, _, hstw, _⟩ <;>
          rw [hstw] at hst <;> omega
    obtain ⟨h0, hf0, hall⟩ := hI.pre hwnone
    have hregN0 : regN s.threads = 0 := by
      apply List.countP_eq_zero.mpr
      intro u hu
      obtain ⟨k, hk⟩ := List.mem_iff_getElem?.mp hu
      simpa using (hall k u hk).2.2
    refine ⟨?_, ?_, ?_, ?_, ?_, ?_, ?_, ?_, ?_⟩
    · rw [List.length_set]
      exact hI.len
    · intro hw0
      exact Option.noConfusion hw0
    · intro w hw
      obtain rfl : i = w := Option.some.inj hw
      refine ⟨{ t with pc := .makeRunner, won := true }, List.getElem?_set_self hilt, ?_⟩
      left
      refine ⟨Or.inl rfl, hf0, ?_⟩
      dsimp only
      rw [regN_congr heq (show ({ t with pc := PC.makeRunner, won := true } :
          ThreadState).registered = t.registered from rfl), hregN0]
      omega
    · intro j u hu hp
      rcases set_lookup hu with ⟨rfl, rfl⟩ | hold
      · rfl
      · exfalso
        rcases (hall j u hold).1 with h | h | h <;> rcases hp with h2 | h2 | h2 <;>
          rw [h] at h2 <;> cases h2
    · intro j u hu
      rcases set_lookup hu with ⟨rfl, rfl⟩ | hold
      · simp [errPos]
      · exact hI.nofail j u hold
    · intro j u hu hr
      rcases set_lookup hu with ⟨rfl, rfl⟩ | hold
      · have hf : t.registered = false := (hall i t heq).2.2
        rw [show ({ t with pc := PC.makeRunner, won := true } :
          ThreadState).registered = t.registered from rfl, hf] at hr
        cases hr
      · exact hI.regpc j u hold hr
    · intro j u hu hp
      rcases set_lookup hu with ⟨rfl, rfl⟩ | hold
      · simp at hp
      · exact hI.chk2 j u hold hp
    · intro j u hu hp
      rcases set_lookup hu with ⟨rfl, rfl⟩ | hold
      · simp [waitPos] at hp
      · exact hI.wreg j u hold hp
    · intro j u hu
      rcases set_lookup hu with ⟨rfl, rfl⟩ | hold
      · simpa using hI.expW i t heq
      · exact hI.expW j u hold
  | winMiss t heq hpc hst =>
    refine inv2_set hI heq (by simp [winnerPos, hpc]) rfl (by simp) (by simp [errPos])
      (fun hr => absurd (hI.regpc i t heq (by simpa using hr)).2 (by simp [regPos, hpc]))
      (by simp) (by simp [waitPos])
      (by have := inv2_st_lt hn hI; simp only []; omega)
      (fun hw => absurd (hI.pre hw).1 hst)
  | mkRunner t heq hpc =>
    have hilt : i < s.threads.length := (List.getElem?_eq_some_iff.mp heq).1
    have hwin : s.winner = some i := hI.wpc i t heq (Or.inl hpc)
    obtain ⟨tw, htw, hphase⟩ := hI.win i hwin
    obtain rfl := Option.some.inj (heq.symm.trans htw)
    refine ⟨?_, ?_, ?_, ?_, ?_, ?_, ?_, ?_, ?_⟩
    · rw [List.length_set]
      exact hI.len
    · intro hw0
      rw [show s.winner = none from hw0] at hwin
      cases hwin
    · intro w hw
      obtain rfl : w = i := (Option.some.inj (hwin.symm.trans hw)).symm
      refine ⟨{ t with inited := true, pc := .runFn }, List.getElem?_set_self hilt, ?_⟩
      rcases hphase with ⟨hp, hf0, hst⟩ | ⟨hp, _, _⟩ | ⟨hp, _, _, _⟩
      · left
        refine ⟨Or.inr rfl, hf0, ?_⟩
        dsimp only
        rw [regN_congr heq (show ({ t with inited := true, pc := PC.runFn } :
            ThreadState).registered = t.registered from rfl)]
        exact hst
      · rw [hpc] at hp
        cases hp
      · rcases hp with hp | hp <;> (rw [hpc] at hp; cases hp)
    · intro j u hu hp
      rcases set_lookup hu with ⟨rfl, rfl⟩ | hold
      · exact hwin
      · exact hI.wpc j u hold hp
    · intro j u hu
      rcases set_lookup hu with ⟨rfl, rfl⟩ | hold
      · simp [errPos]
      · exact hI.nofail j u hold
    · intro j u hu hr
      rcases set_lookup hu with ⟨rfl, rfl⟩ | hold
      · exact absurd (hI.regpc i t heq (by simpa using hr)).2 (by simp [regPos, hpc])
      · exact hI.regpc j u hold hr
    · intro j u hu hp
      rcases set_lookup hu with ⟨rfl, rfl⟩ | hold
      · simp at hp
      · exact hI.chk2 j u hold hp
    · intro j u hu hp
      rcases set_lookup hu with ⟨rfl, rfl⟩ | hold
      · simp [waitPos] at hp
      · exact hI.wreg j u hold hp
    · intro j u hu
      rcases set_lookup hu with ⟨rfl, rfl⟩ | hold
      · simpa using hI.expW i t heq
      · exact hI.expW j u hold
  | runOk t heq hpc hf =>
    have hilt : i < s.threads.length := (List.getElem?_eq_some_iff.mp heq).1
    have hwin : s.winner = some i := hI.wpc i t heq (Or.inr (Or.inl hpc))
    obtain ⟨tw, htw, hphase⟩ := hI.win i hwin
    obtain rfl := Option.some.inj (heq.symm.trans htw)
    refine ⟨?_, ?_, ?_, ?_, ?_, ?_, ?_, ?_, ?_⟩
    · rw [List.length_set]
      exact hI.len
    · intro hw0
      rw [show s.winner = none from hw0] at hwin
      cases hwin
    · intro w hw
      obtain rfl : w = i := (Option.some.inj (hwin.symm.trans hw)).symm
      refine ⟨{ t with workDone := true, pc := .doneCAS }, List.getElem?_set_self hilt, ?_⟩
      rcases hphase with ⟨hp, hf0, hst⟩ | ⟨hp, _, _⟩ | ⟨hp, _, _, _⟩
      · right
        left
        refine ⟨rfl, by dsimp only; rw [hf0], ?_⟩
        dsimp only
        rw [regN_congr heq (show ({ t with workDone := true, pc := PC.doneCAS } :
            ThreadState).registered = t.registered from rfl)]
        exact hst
      · rw [hpc] at hp
        cases hp
      · rcases hp with hp | hp <;> (rw [hpc] at hp; cases hp)
    · intro j u hu hp
      rcases set_lookup hu with ⟨rfl, rfl⟩ | hold
      · exact hwin
      · exact hI.wpc j u hold hp
    · intro j u hu
      rcases set_lookup hu with ⟨rfl, rfl⟩ | hold
      · simp [errPos]
      · exact hI.nofail j u hold
    · intro j u hu hr
      rcases set_lookup hu with ⟨rfl, rfl⟩ | hold
      · exact absurd (hI.regpc i t heq (by simpa using hr)).2 (by simp [regPos, hpc])
      · exact hI.regpc j u hold hr
    · intro j u hu hp
      rcases set_lookup hu with ⟨rfl, rfl⟩ | hold
      · simp at hp
      · exact hI.chk2 j u hold hp
    · intro j u hu hp
      rcases set_lookup hu with ⟨rfl, rfl⟩ | hold
      · simp [waitPos] at hp
      · exact hI.wreg j u hold hp
    · intro j u hu
      rcases set_lookup hu with ⟨rfl, rfl⟩ | hold
      · simpa using hI.expW i t heq
      · exact hI.expW j u hold
  | runErr t heq hpc hf =>
    simp [ff] at hf
  | doneHit t heq hpc hst =>
    have hilt : i < s.threads.length := (List.getElem?_eq_some_iff.mp heq).1
    have hwin : s.winner = some i := hI.wpc i t heq (Or.inr (Or.inr hpc))
    obtain ⟨tw, htw, hphase⟩ := hI.win i hwin
    obtain rfl := Option.some.inj (heq.symm.trans htw)
    rcases hphase with ⟨hp, _, _⟩ | ⟨hp, hf1, hst2⟩ | ⟨hp, _, _, _⟩
    · exfalso
      rcases hp with hp | hp <;> (rw [hpc] at hp; cases hp)
    swap
    · exfalso
      rcases hp with hp | hp <;> (rw [hpc] at hp; cases hp)
    have hr0 : regN s.threads = 0 := by
      rw [hst] at hst2
      omega
    refine ⟨?_, ?_, ?_, ?_, ?_, ?_, ?_, ?_, ?_⟩
    · rw [List.length_set]
      exact hI.len
    · intro hw0
      rw [show s.winner = none from hw0] at hwin
      cases hwin
    · intro w hw
      obtain rfl : w = i := (Option.some.inj (hwin.symm.trans hw)).symm
      refine ⟨{ t with pc := .dtorOk }, List.getElem?_set_self hilt, ?_⟩
      right
      right
      refine ⟨Or.inl rfl, hf1, rfl, ?_⟩
      dsimp only
      rw [regN_congr heq (show ({ t with pc := PC.dtorOk } :
          ThreadState).registered = t.registered from rfl)]
      exact hr0
    · intro j u hu hp
      rcases set_lookup hu with ⟨rfl, rfl⟩ | hold
      · simp at hp
      · exact hI.wpc j u hold hp
    · intro j u hu
      rcases set_lookup hu with ⟨rfl, rfl⟩ | hold
      · simp [errPos]
      · exact hI.nofail j u hold
    · intro j u hu hr
      rcases set_lookup hu with ⟨rfl, rfl⟩ | hold
      · exact absurd (hI.regpc i t heq (by simpa using hr)).2 (by simp [regPos, hpc])
      · exact hI.regpc j u hold hr
    · intro j u hu hp
      rcases set_lookup hu with ⟨rfl, rfl⟩ | hold
      · simp at hp
      · exact hI.chk2 j u hold hp
    · intro j u hu hp
      rcases set_lookup hu with ⟨rfl, rfl⟩ | hold
      · simp [waitPos] at hp
      · exact hI.wreg j u hold hp
    · intro j u hu
      rcases set_lookup hu with ⟨rfl, rfl⟩ | hold
      · simpa using hI.expW i t heq
      · exact hI.expW j u hold
  | failHit t heq hpc hst =>
    exact absurd (Or.inl hpc) (hI.nofail i t heq)
  | spinPass t heq hpc hst =>
    refine inv2_set hI heq (by simp [winnerPos, hpc]) rfl (by simp) (by simp [errPos])
      (fun hr => absurd (hI.regpc i t heq (by simpa using hr)).2 (by simp [regPos, hpc]))
      (by simp) (by simp [waitPos])
      (by have := inv2_st_lt hn hI; simp only []; omega)
      (fun hw => absurd ((hI.pre hw).2.2 i t heq).1 (by simp [prePos, hpc]))
  | guardLow t heq hpc he =>
    refine inv2_set hI heq (by simp [winnerPos, hpc]) rfl (by simp) (by simp [errPos])
      (fun hr => absurd (hI.regpc i t heq (by simpa using hr)).2 (by simp [regPos, hpc]))
      (fun _ => Or.inr (by simpa using he)) (by simp [waitPos])
      (by simpa using hI.expW i t heq)
      (fun hw => absurd ((hI.pre hw).2.2 i t heq).1 (by simp [prePos, hpc]))
  | guardHit t heq hpc he hst =>
    have hilt : i < s.threads.length := (List.getElem?_eq_some_iff.mp heq).1
    have hregf : t.registered = false := by
      cases hrv : t.registered
      · rfl
      · exact absurd (hI.regpc i t heq hrv).2 (by simp [regPos, hpc])
    have hstlt := inv2_st_lt hn hI
    have hmod : (t.expected + 1) % W = t.expected + 1 :=
      Nat.mod_eq_of_lt (by rw [← hst]; omega)
    cases hwv : s.winner with
    | none =>
      exfalso
      have h0 := (hI.pre hwv).1
      rw [hst] at h0
      exact he (by omega)
    | some w =>
      obtain ⟨tw, htw, hphase⟩ := hI.win w hwv
      have hiw : i ≠ w := by
        intro hiweq
        subst hiweq
        obtain rfl := Option.some.inj (heq.symm.trans htw)
        rcases hphase with ⟨hp, _, _⟩ | ⟨hp, _, _⟩ | ⟨hp, _, _, _⟩
        · rcases hp with hp | hp <;> (rw [hpc] at hp; cases hp)
        · rw [hpc] at hp
          cases hp
        · rcases hp with hp | hp <;> (rw [hpc] at hp; cases hp)
      have hwlt : w < n := hI.len ▸ (List.getElem?_eq_some_iff.mp htw).1
      have hb := addrOf_bounds hn hwlt
      have hstform : s.myState = addrOf w + regN s.threads := by
        rcases hphase with ⟨_, _, hstw⟩ | ⟨_, _, hstw⟩ | ⟨_, _, hstw, _⟩
        · exact hstw
        · exact hstw
        · exfalso
          rw [hstw] at hst
          exact he (by omega)
      have hcnt : regN (s.threads.set i { t with registered := true, pc := .mCheckRunner })
          = regN s.threads + 1 :=
        countP_set_incr heq (by simp [hregf]) (by simp)
      refine ⟨?_, ?_, ?_, ?_, ?_, ?_, ?_, ?_, ?_⟩
      · rw [List.length_set]
        exact hI.len
      · intro hw0
        exact Option.noConfusion hw0
      · intro w2 hw2
        have hww : (some w : Option Nat) = some w2 := hw2
        obtain rfl : w2 = w := (Option.some.inj hww).symm
        refine ⟨tw, by rw [List.getElem?_set_ne hiw]; exact htw, ?_⟩
        rcases hphase with ⟨hp, hf0, _⟩ | ⟨hp, hf1, _⟩ | ⟨hp, _, hstw, _⟩
        · left
          refine ⟨hp, hf0, ?_⟩
          dsimp only
          rw [hcnt, hmod, ← hst, hstform]
          omega
        · right
          left
          refine ⟨hp, hf1, ?_⟩
          dsimp only
          rw [hcnt, hmod, ← hst, hstform]
          omega
        · exfalso
          rw [hstw] at hst
          exact he (by omega)
      · intro j u hu hp
        rcases set_lookup hu with ⟨rfl, rfl⟩ | hold
        · simp at hp
        · exact hwv.symm.trans (hI.wpc j u hold hp)
      · intro j u hu
        rcases set_lookup hu with ⟨rfl, rfl⟩ | hold
        · simp [errPos]
        · exact hI.nofail j u hold
      · intro j u hu hr
        rcases set_lookup hu with ⟨rfl, rfl⟩ | hold
        · refine ⟨?_, by simp [regPos]⟩
          have : 128 ≤ s.myState := by
            rw [hstform]
            omega
          rw [hst] at this
          simpa using this
        · exact hI.regpc j u hold hr
      · intro j u hu hp
        rcases set_lookup hu with ⟨rfl, rfl⟩ | hold
        · left
          rfl
        · exact hI.chk2 j u hold hp
      · intro j u hu hp
        rcases set_lookup hu with ⟨rfl, rfl⟩ | hold
        · simp [waitPos] at hp
        · exact hI.wreg j u hold hp
      · intro j u hu
        rcases set_lookup hu with ⟨rfl, rfl⟩ | hold
        · simpa using hI.expW i t heq
        · exact hI.expW j u hold
  | guardMiss t heq hpc he hst =>
    refine inv2_set hI heq (by simp [winnerPos, hpc]) rfl (by simp) (by simp [errPos])
      (fun hr => absurd (hI.regpc i t heq (by simpa using hr)).2 (by simp [regPos, hpc]))
      (by simp) (by simp [waitPos])
      (by have := inv2_st_lt hn hI; simp only []; omega)
      (fun hw => absurd ((hI.pre hw).2.2 i t heq).1 (by simp [prePos, hpc]))
  | checkNull t heq hpc hm =>
    refine inv2_set hI heq (by simp [winnerPos, hpc]) rfl (by simp) (by simp [errPos])
      (fun hr => ?_) (by simp) (by simp [waitPos]) (by simpa using hI.expW i t heq)
      (fun hw => absurd ((hI.pre hw).2.2 i t heq).1 (by simp [prePos, hpc]))
    exact absurd hm (maskoff_pos (hI.regpc i t heq (by simpa using hr)).1
      (hI.expW i t heq))
  | checkSome t heq hpc hm hlt =>
    have hreg : t.registered = true := by
      rcases hI.chk2 i t heq hpc with h | h
      · exact h
      · exact absurd (maskoff_le_one h) hm
    refine inv2_set hI heq (by simp [winnerPos, hpc]) rfl (by simp) (by simp [errPos])
      (fun _ => ⟨by simpa using (hI.regpc i t heq hreg).1, by simp [regPos]⟩)
      (by simp) (fun _ => by simpa using hreg) (by simpa using hI.expW i t heq)
      (fun hw => absurd ((hI.pre hw).2.2 i t heq).1 (by simp [prePos, hpc]))
  | checkStuck t heq hpc hm hge =>
    refine inv2_set hI heq (by simp [winnerPos, hpc]) rfl (by simp) (by simp [errPos])
      (fun hr => ⟨by simpa using (hI.regpc i t heq (by simpa using hr)).1,
        by simp [regPos]⟩)
      (by simp) (by simp [waitPos]) (by simpa using hI.expW i t heq)
      (fun hw => absurd ((hI.pre hw).2.2 i t heq).1 (by simp [prePos, hpc]))
  | initPass t tr heq hpc ht hi =>
    refine inv2_set hI heq (by simp [winnerPos, hpc]) rfl (by simp) (by simp [errPos])
      (fun hr => ⟨by simpa using (hI.regpc i t heq (by simpa using hr)).1,
        by simp [regPos]⟩)
      (by simp) (fun _ => by simpa using hI.wreg i t heq (Or.inl hpc))
      (by simpa using hI.expW i t heq)
      (fun hw => absurd ((hI.pre hw).2.2 i t heq).1 (by simp [prePos, hpc]))
  | incSelf t heq hpc hsame =>
    refine inv2_set hI heq (by simp [winnerPos, hpc]) rfl (by simp) (by simp [errPos])
      (fun hr => ⟨by simpa using (hI.regpc i t heq (by simpa using hr)).1,
        by simp [regPos]⟩)
      (by simp) (fun _ => by simpa using hI.wreg i t heq (Or.inr (Or.inl hpc)))
      (by simpa using hI.expW i t heq)
      (fun hw => absurd ((hI.pre hw).2.2 i t heq).1 (by simp [prePos, hpc]))
  | incOther t tr heq hpc hne ht =>
    have h1 : Inv2 n { s with threads := s.threads.set i { t with pc := .mFetchSub } } :=
      inv2_set hI heq (by simp [winnerPos, hpc]) rfl (by simp) (by simp [errPos])
        (fun hr => ⟨by simpa using (hI.regpc i t heq (by simpa using hr)).1,
          by simp [regPos]⟩)
        (by simp) (fun _ => by simpa using hI.wreg i t heq (Or.inr (Or.inl hpc)))
        (by simpa using hI.expW i t heq)
        (fun hw => absurd ((hI.pre hw).2.2 i t heq).1 (by simp [prePos, hpc]))
    exact inv2_rc h1 (by
      rw [show ({ s with threads := s.threads.set i { t with pc := .mFetchSub } } : Sys).threads
        = s.threads.set i { t with pc := .mFetchSub } from rfl,
        List.getElem?_set_ne (Ne.symm hne)]
      exact ht) (tr.refCount + 1)
  | subCount t heq hpc =>
    have hilt : i < s.threads.length := (List.getElem?_eq_some_iff.mp heq).1
    have hreg : t.registered = true := hI.wreg i t heq (Or.inr (Or.inr hpc))
    have hpos : 1 ≤ regN s.threads :=
      countP_pos_of_lookup heq (by simp [hreg])
    have hstlt := inv2_st_lt hn hI
    cases hwv : s.winner with
    | none =>
      exact absurd hreg (by rw [((hI.pre hwv).2.2 i t heq).2.2]; simp)
    | some w =>
      obtain ⟨tw, htw, hphase⟩ := hI.win w hwv
      have hiw : i ≠ w := by
        intro hiweq
        subst hiweq
        obtain rfl := Option.some.inj (heq.symm.trans htw)
        rcases hphase with ⟨hp, _, _⟩ | ⟨hp, _, _⟩ | ⟨hp, _, _, _⟩
        · rcases hp with hp | hp <;> (rw [hpc] at hp; cases hp)
        · rw [hpc] at hp
          cases hp
        · rcases hp with hp | hp <;> (rw [hpc] at hp; cases hp)
      have hwlt : w < n := hI.len ▸ (List.getElem?_eq_some_iff.mp htw).1
      have hb := addrOf_bounds hn hwlt
      have hstform : s.myState = addrOf w + regN s.threads := by
        rcases hphase with ⟨_, _, hstw⟩ | ⟨_, _, hstw⟩ | ⟨_, _, _, hrz⟩
        · exact hstw
        · exact hstw
        · exfalso
          omega
      have hmod : (s.myState + (W - 1)) % W = s.myState - 1 :=
        predW_mod (by rw [hstform]; omega) (by omega)
      have hcnt : regN (s.threads.set i { t with registered := false, pc := .mAssist })
          = regN s.threads - 1 :=
        countP_set_decr heq (by simp [hreg]) (by simp)
      refine ⟨?_, ?_, ?_, ?_, ?_, ?_, ?_, ?_, ?_⟩
      · rw [List.length_set]
        exact hI.len
      · intro hw0
        exact Option.noConfusion hw0
      · intro w2 hw2
        have hww : (some w : Option Nat) = some w2 := hw2
        obtain rfl : w2 = w := (Option.some.inj hww).symm
        refine ⟨tw, by rw [List.getElem?_set_ne hiw]; exact htw, ?_⟩
        rcases hphase with ⟨hp, hf0, _⟩ | ⟨hp, hf1, _⟩ | ⟨hp, _, _, hrz⟩
        · left
          refine ⟨hp, hf0, ?_⟩
          dsimp only
          rw [hcnt, hmod, hstform]
          omega
        · right
          left
          refine ⟨hp, hf1, ?_⟩
          dsimp only
          rw [hcnt, hmod, hstform]
          omega
        · exfalso
          omega
      · intro j u hu hp
        rcases set_lookup hu with ⟨rfl, rfl⟩ | hold
        · simp at hp
        · exact hwv.symm.trans (hI.wpc j u hold hp)
      · intro j u hu
        rcases set_lookup hu with ⟨rfl, rfl⟩ | hold
        · simp [errPos]
        · exact hI.nofail j u hold
      · intro j u hu hr
        rcases set_lookup hu with ⟨rfl, rfl⟩ | hold
        · cases hr
        · exact hI.regpc j u hold hr
      · intro j u hu hp
        rcases set_lookup hu with ⟨rfl, rfl⟩ | hold
        · simp at hp
        · exact hI.chk2 j u hold hp
      · intro j u hu hp
        rcases set_lookup hu with ⟨rfl, rfl⟩ | hold
        · simp [waitPos] at hp
        · exact hI.wreg j u hold hp
      · intro j u hu
        rcases set_lookup hu with ⟨rfl, rfl⟩ | hold
        · simpa using hI.expW i t heq
        · exact hI.expW j u hold
  | assistPass t tr heq hpc ht hw =>
    refine inv2_set hI heq (by simp [winnerPos, hpc]) rfl (by simp) (by simp [errPos])
      (fun hr => absurd (hI.regpc i t heq (by simpa using hr)).2 (by simp [regPos, hpc]))
      (by simp) (by simp [waitPos]) (by simpa using hI.expW i t heq)
      (fun hwn => absurd ((hI.pre hwn).2.2 i t heq).1 (by simp [prePos, hpc]))
  | decSelf t heq hpc hsame =>
    refine inv2_set hI heq (by simp [winnerPos, hpc]) rfl (by simp) (by simp [errPos])
      (fun hr => absurd (hI.regpc i t heq (by simpa using hr)).2 (by simp [regPos, hpc]))
      (by simp) (by simp [waitPos]) (by simpa using hI.expW i t heq)
      (fun hw => absurd ((hI.pre hw).2.2 i t heq).1 (by simp [prePos, hpc]))
  | decOther t tr heq hpc hne ht =>
    have h1 : Inv2 n { s with threads := s.threads.set i { t with pc := .loopHead } } :=
      inv2_set hI heq (by simp [winnerPos, hpc]) rfl (by simp) (by simp [errPos])
        (fun hr => absurd (hI.regpc i t heq (by simpa using hr)).2 (by simp [regPos, hpc]))
        (by simp) (by simp [waitPos]) (by simpa using hI.expW i t heq)
        (fun hw => absurd ((hI.pre hw).2.2 i t heq).1 (by simp [prePos, hpc]))
    exact inv2_rc h1 (by
      rw [show ({ s with threads := s.threads.set i { t with pc := .loopHead } } : Sys).threads
        = s.threads.set i { t with pc := .loopHead } from rfl,
        List.getElem?_set_ne (Ne.symm hne)]
      exact ht) (tr.refCount - 1)
  | dtorFire t heq hpc hrc =>
    have hilt : i < s.threads.length := (List.getElem?_eq_some_iff.mp heq).1
    refine ⟨?_, ?_, ?_, ?_, ?_, ?_, ?_, ?_, ?_⟩
    · rw [List.length_set]
      exact hI.len
    · intro hw0
      obtain ⟨h0, h1, hall⟩ := hI.pre hw0
      exact absurd (hall i t heq).1 (by simp [prePos, hpc])
    · intro w hw
      obtain ⟨tw, htw, hphase⟩ := hI.win w hw
      have hregN : regN (s.threads.set i
          { t with pc := .finishedOk, destroyed := t.inited }) = regN s.threads :=
        regN_congr heq (show ({ t with pc := PC.finishedOk, destroyed := t.inited } :
          ThreadState).registered = t.registered from rfl)
      by_cases hiw : i = w
      · subst hiw
        obtain rfl := Option.some.inj (heq.symm.trans htw)
        rcases hphase with ⟨hp, _, _⟩ | ⟨hp, _, _⟩ | ⟨hp, hf1, hst1, hr0⟩
        · exfalso
          rcases hp with hp | hp <;> (rw [hpc] at hp; cases hp)
        · exfalso
          rw [hpc] at hp
          cases hp
        · refine ⟨{ t with pc := .finishedOk, destroyed := t.inited },
            List.getElem?_set_self hilt, ?_⟩
          right
          right
          refine ⟨Or.inr rfl, hf1, hst1, ?_⟩
          dsimp only
          rw [hregN]
          exact hr0
      · refine ⟨tw, by rw [List.getElem?_set_ne hiw]; exact htw, ?_⟩
        dsimp only
        rw [hregN]
        exact hphase
    · intro j u hu hp
      rcases set_lookup hu with ⟨rfl, rfl⟩ | hold
      · simp at hp
      · exact hI.wpc j u hold hp
    · intro j u hu
      rcases set_lookup hu with ⟨rfl, rfl⟩ | hold
      · simp [errPos]
      · exact hI.nofail j u hold
    · intro j u hu hr
      rcases set_lookup hu with ⟨rfl, rfl⟩ | hold
      · exact absurd (hI.regpc i t heq (by simpa using hr)).2 (by simp [regPos, hpc])
      · exact hI.regpc j u hold hr
    · intro j u hu hp
      rcases set_lookup hu with ⟨rfl, rfl⟩ | hold
      · simp at hp
      · exact hI.chk2 j u hold hp
    · intro j u hu hp
      rcases set_lookup hu with ⟨rfl, rfl⟩ | hold
      · simp [waitPos] at hp
      · exact hI.wreg j u hold hp
    · intro j u hu
      rcases set_lookup hu with ⟨rfl, rfl⟩ | hold
      · simpa using hI.expW i t heq
      · exact hI.expW j u hold
  | dtorFireErr t heq hpc hrc =>
    exact absurd (Or.inr (Or.inl hpc)) (hI.nofail i t heq)

theorem inv2_init (n : Nat) : Inv2 n (initSys n) := by
  have hlook : ∀ (j : Nat) (u : ThreadState), (initSys n).threads[j]? = some u → u = initTS := by
    intro j u hu
    rw [show (initSys n).threads = List.replicate n initTS from rfl,
      List.getElem?_replicate] at hu
    split at hu
    · cases hu
      rfl
    · cases hu
  refine ⟨?_, ?_, ?_, ?_, ?_, ?_, ?_, ?_, ?_⟩
  · simp [initSys]
  · intro _
    refine ⟨rfl, rfl, fun j u hu => ?_⟩
    rw [hlook j u hu]
    exact ⟨Or.inl rfl, rfl, rfl⟩
  · intro w hw
    cases hw
  · intro j u hu hp
    rw [hlook j u hu] at hp
    simp [initTS] at hp
  · intro j u hu hp
    rw [hlook j u hu] at hp
    simp [errPos, initTS] at hp
  · intro j u hu hr
    rw [hlook j u hu] at hr
    simp [initTS] at hr
  · intro j u hu hp
    rw [hlook j u hu] at hp
    simp [initTS] at hp
  · intro j u hu hp
    rw [hlook j u hu] at hp
    simp [waitPos, initTS] at hp
  · intro j u hu
    rw [hlook j u hu]
    decide

theorem inv2_exec {n : Nat} (hn : 129 * (n + 1) < W) (sched : List Nat) :
    Inv2 n (exec ff n sched) :=
  inv_foldl ff (fun s i hs => inv2_step hn s i hs) sched (initSys n) (inv2_init n)

/-- C2: the functor runs exactly once.  On a fresh flag with `n` concurrent
callers of a never-failing functor (one that only increments a shared
counter), along every schedule: the functor has run at most once; if every
caller has returned (normally), it has run exactly once — the shared counter
equals 1; and the winner role is acquired only by a successful
compare-exchange of the flag word from `uninitialized` to the caller's runner
address (any step that changes the winner ghost is such a CAS, and it marks
the stepping thread as the winner). -/
theorem c2_exactly_once (n : Nat) (sched : List Nat) (hn1 : 1 ≤ n)
    (hn : 129 * (n + 1) < W) :
    (exec ff n sched).fnRuns ≤ 1 ∧
    ((∀ (j : Nat) (hj : j < (exec ff n sched).threads.length),
        ((exec ff n sched).threads[j]).pc = .finishedOk) →
      (exec ff n sched).fnRuns = 1) ∧
    (∀ (fails : Nat → Bool) (s : Sys) (i : Nat),
      (step fails s i).winner ≠ s.winner →
      ∃ t, s.threads[i]? = some t ∧ t.pc = .tryWin ∧ s.myState = 0 ∧
        (step fails s i).winner = some i ∧
        ((step fails s i).threads.getD i initTS).won = true) := by
  have hI := inv2_exec hn sched
  refine ⟨?_, ?_, ?_⟩
  · cases hwv : (exec ff n sched).winner with
    | none =>
      rw [(hI.pre hwv).2.1]
      omega
    | some w =>
      obtain ⟨tw, htw, hphase⟩ := hI.win w hwv
      rcases hphase with ⟨_, hf, _⟩ | ⟨_, hf, _⟩ | ⟨_, hf, _, _⟩ <;> rw [hf]
      all_goals omega
  · intro hall
    cases hwv : (exec ff n sched).winner with
    | none =>
      exfalso
      have h0lt : 0 < (exec ff n sched).threads.length := by
        rw [hI.len]
        omega
      have hu : (exec ff n sched).threads[0]? = some ((exec ff n sched).threads[0]) :=
        List.getElem?_eq_getElem h0lt
      have hpre := ((hI.pre hwv).2.2 0 _ hu).1
      have hfin := hall 0 h0lt
      rcases hpre with h | h | h <;> rw [hfin] at h <;> cases h
    | some w =>
      obtain ⟨tw, htw, hphase⟩ := hI.win w hwv
      obtain ⟨hwlt, hget⟩ := List.getElem?_eq_some_iff.mp htw
      have hfin := hall w hwlt
      rw [hget] at hfin
      rcases hphase with ⟨hp, _, _⟩ | ⟨hp, _, _⟩ | ⟨_, hf1, _, _⟩
      · exfalso
        rcases hp with hp | hp <;> rw [hfin] at hp <;> cases hp
      · exfalso
        rw [hfin] at hp
        cases hp
      · exact hf1
  · intro fails s i
    have hs := step_shape fails s i
    generalize hgen : step fails s i = r at hs ⊢
    clear hgen
    cases hs <;> intro hne <;>
      first
        | exact ⟨_, by assumption, by assumption, by assumption, rfl, by
            rw [List.getD_eq_getElem?_getD, List.getElem?_set_self
              ((List.getElem?_eq_some_iff.mp (by assumption)).1)]
            rfl⟩
        | exact absurd rfl hne

/-- Closed instance of `c2_exactly_once`: two callers, a complete schedule
(the first caller wins and runs the functor, the second observes `done`),
shared counter equal to 1 at the end. -/
theorem c2_exactly_once_w :
    (exec ff 2 [0, 0, 0, 0, 0, 0, 0, 1, 1, 1]).fnRuns = 1 := by
  exact (c2_exactly_once 2 [0, 0, 0, 0, 0, 0, 0, 1, 1, 1] (by norm_num)
    (by decide)).2.1 (by decide)

end CollabOnce
